import Mathlib

/-!
Verification of the disk-scanner server (src/server.js).

Modelling conventions, fixed throughout:

- Paths are modelled as lists of components (POSIX form); the absolute path
  string corresponding to components `p` is `joinPath p = "/" ++ intercalate "/" p`.
  Under this correspondence: `path.join(dir, name)` is `dir ++ [name]`,
  `path.dirname p` is `p.dropLast` (dirname of the root "/" is "/" again, i.e.
  `[].dropLast = []`), and for two paths that are both component-prefixes of a
  common path (the only comparisons the scanner ever performs), the string test
  `a.startsWith(b)` agrees with the component test `b.isPrefixOf a`, and string
  length comparison agrees with component length comparison.  `path.normalize`
  is the identity on the already-normal paths produced by joins.
- JavaScript objects used as dictionaries (stats.fileTypes, stats.folders,
  stats.applications) are modelled as insertion-ordered association lists.
  The source idiom `if (!m[k]) m[k] = init; <mutate m[k]>` is `bumpA k init f`.
  Prototype-chain quirks of raw object property lookup (keys such as
  constructor or toString colliding with inherited members) are outside the
  model: dictionaries are pure key-value maps.
- The filesystem seen by one scan is a value of the nested inductive `FSNode`.
  A file carries `stat : Option Nat`: `some size` when `fs.statSync` succeeds,
  `none` when it throws.  A directory carries `readable : Bool`: `false` means
  `fs.accessSync`/`fs.readdirSync` on it fails (its children are then never
  observed, exactly as in the source).  `fs.existsSync` on a path obtained from
  a parent listing is true (the filesystem is stable during the walk), so the
  two defensive existence checks in scanDirectory are always passed.
- File sizes and counters are Nat (JS numbers holding byte counts).
-/

namespace DiskScanner

/-- Filesystem tree as observed by one scan. -/
inductive FSNode where
  | file (name : String) (stat : Option Nat)
  | dir (name : String) (readable : Bool) (children : List FSNode)

/-- Entry of stats.fileTypes (src/server.js lines 306-315). -/
structure FileTypeEntry where
  name : String
  count : Nat
  size : Nat
  description : String
deriving DecidableEq

/-- Entry of stats.folders (src/server.js lines 276-282, 346-352). -/
structure FolderEntry where
  name : String
  path : List String
  size : Nat
deriving DecidableEq

/-- Entry of stats.applications (src/server.js lines 331-337). -/
structure AppEntry where
  name : String
  path : List String
  size : Nat
deriving DecidableEq

/-- The scan statistics object created in startScan (src/server.js lines 144-152). -/
structure Stats where
  totalFiles : Nat
  totalSize : Nat
  fileTypes : List (String × FileTypeEntry)
  folders : List (List String × FolderEntry)
  applications : List (String × AppEntry)
  scannedCount : Nat
  errorCount : Nat
deriving DecidableEq

/-- The initial statistics object (src/server.js lines 144-152). -/
def initStats : Stats :=
  { totalFiles := 0, totalSize := 0, fileTypes := [], folders := [],
    applications := [], scannedCount := 0, errorCount := 0 }

/-- The task object stored in scanTasks (src/server.js lines 155-162).
The WebSocket and start time live outside the model; wsOpen models
task.ws.readyState being 1. -/
structure Task where
  drivePath : List String
  scanDepth : Nat
  abort : Bool
  wsOpen : Bool
deriving DecidableEq

section AssocList

variable {κ : Type} {α : Type} [DecidableEq κ]

/-- Dictionary read m[k] on an association list. -/
def lookupA (k : κ) : List (κ × α) → Option α
  | [] => none
  | kv :: rest => if kv.1 = k then some kv.2 else lookupA k rest

/-- In-place update of the (first) entry with key k, as mutation of m[k] does. -/
def setA (k : κ) (f : α → α) : List (κ × α) → List (κ × α)
  | [] => []
  | kv :: rest => if kv.1 = k then (kv.1, f kv.2) :: rest else kv :: setA k f rest

/-- The idiom `if (!m[k]) m[k] = v` : insert at the end when the key is absent. -/
def ensureA (k : κ) (v : α) (m : List (κ × α)) : List (κ × α) :=
  if (lookupA k m).isSome then m else m ++ [(k, v)]

/-- The idiom `if (!m[k]) m[k] = v; <mutate m[k] by f>`. -/
def bumpA (k : κ) (v : α) (f : α → α) (m : List (κ × α)) : List (κ × α) :=
  setA k f (ensureA k v m)

/-- Numeric field of the entry at key k, 0 when the key is absent. -/
def measAt (g : α → Nat) (k : κ) (m : List (κ × α)) : Nat :=
  ((lookupA k m).map g).getD 0

/-- Sum of a numeric field over all entries of the dictionary. -/
def sumMeas (g : α → Nat) (m : List (κ × α)) : Nat :=
  (m.map (fun kv => g kv.2)).sum

end AssocList

/-! String helpers mirroring the path functions the source relies on. -/

/-- Absolute path string of a component list (POSIX separator). -/
def joinPath (p : List String) : String :=
  "/" ++ String.intercalate "/" p

/-- Substring containment on character lists, as in String.prototype.includes. -/
def charsInfix (pat : List Char) : List Char → Bool
  | [] => pat.isEmpty
  | c :: rest => pat.isPrefixOf (c :: rest) || charsInfix pat rest

/-- The JavaScript test s.includes(pat). -/
def strIncludes (s pat : String) : Bool :=
  charsInfix pat.toList s.toList

/-- ASCII lowercase of one character.  The scanner only compares ASCII
markers case-insensitively, and on the ASCII range this is exactly
String.prototype.toLowerCase. -/
def lowerChar (c : Char) : Char :=
  if 65 ≤ c.toNat ∧ c.toNat ≤ 90 then Char.ofNat (c.toNat + 32) else c

/-- ASCII uppercase of one character (String.prototype.toUpperCase on the
ASCII range). -/
def upperChar (c : Char) : Char :=
  if 97 ≤ c.toNat ∧ c.toNat ≤ 122 then Char.ofNat (c.toNat - 32) else c

/-- The JavaScript s.toLowerCase() on ASCII content. -/
def strToLower (s : String) : String :=
  String.mk (s.toList.map lowerChar)

/-- The JavaScript s.toUpperCase() on ASCII content. -/
def strToUpper (s : String) : String :=
  String.mk (s.toList.map upperChar)

/-- The JavaScript s.startsWith(pre). -/
def strStartsWith (s pre : String) : Bool :=
  pre.toList.isPrefixOf s.toList

/-- The JavaScript s.endsWith(suf). -/
def strEndsWith (s suf : String) : Bool :=
  suf.toList.isSuffixOf s.toList

/-- Removal of the first n characters (String.prototype.slice(n)). -/
def strDrop (s : String) (n : Nat) : String :=
  String.mk (s.toList.drop n)

/-- Removal of the last n characters. -/
def strDropRight (s : String) (n : Nat) : String :=
  String.mk (s.toList.take (s.toList.length - n))

/-- Character count of a string. -/
def strLength (s : String) : Nat :=
  s.toList.length

/-- Model of Node path.extname applied to a file name (no separators inside):
the suffix from the last dot, empty when there is no dot or the only dot is
the leading character, and empty on the special names "." and "..". -/
def jsExtname (name : String) : String :=
  if name = "." ∨ name = ".." then ""
  else
    let cs := name.toList
    let tailLen := (cs.reverse.takeWhile (fun c => c ≠ '.')).length
    if tailLen = cs.length then ""
    else if tailLen + 1 = cs.length then ""
    else String.mk (cs.drop (cs.length - tailLen - 1))

/-- Extension as derived at src/server.js lines 295-299: lowercase
path.extname, leading dot removed, with the sentinel for the empty result. -/
def extensionOf (name : String) : String :=
  let e0 := strToLower (jsExtname name)
  let e1 := if strStartsWith e0 "." then strDrop e0 1 else e0
  if e1 = "" then "无扩展名" else e1

/-- Model of Node path.basename(p, ext) applied to a file name: the suffix ext
is removed when the name ends with it and is not equal to it. -/
def jsBasenameSuffix (name : String) (ext : String) : String :=
  if name ≠ ext ∧ strEndsWith name ext then strDropRight name (strLength ext) else name

/-- The friendly-name table of getFolderName (src/server.js lines 425-437). -/
def systemFolderNames : List (String × String) :=
  [("Program Files", "程序文件"), ("Program Files (x86)", "程序文件(x86)"),
   ("Windows", "系统文件夹"), ("Users", "用户文件夹"), ("AppData", "应用数据"),
   ("Documents", "我的文档"), ("Desktop", "桌面"), ("Downloads", "下载"),
   ("Pictures", "图片"), ("Music", "音乐"), ("Videos", "视频")]

/-- Model of getFolderName (src/server.js lines 412-460).  The split on the
path separator followed by filter(Boolean) is the component list with empty
components removed; the try/catch never fires in the model (no operation
throws).  The initial falsy-path check never fires either: an absolute path
string is never empty. -/
def getFolderName (folderPath : List String) : String :=
  let parts := folderPath.filter (fun s => s ≠ "")
  if parts.isEmpty then "根目录"
  else
    let folderName := parts.getLastD ""
    match lookupA folderName systemFolderNames with
    | some friendly => friendly
    | none =>
      if strIncludes (strToLower (joinPath folderPath)) "program files" then
        match parts.findIdx? (fun part => strIncludes (strToLower part) "program files") with
        | some i => if i + 1 < parts.length then parts.getD (i + 1) "" else folderName
        | none => folderName
      else folderName

/-- The extension description table (src/server.js lines 464-506). -/
def fileDescriptions : List (String × String) :=
  [("exe", "可执行文件"), ("dll", "动态链接库"), ("sys", "系统文件"),
   ("docx", "Word文档"), ("xlsx", "Excel表格"), ("pptx", "PowerPoint演示文稿"),
   ("pdf", "PDF文档"), ("txt", "文本文件"), ("jpg", "JPEG图片"),
   ("jpeg", "JPEG图片"), ("png", "PNG图片"), ("gif", "GIF图片"),
   ("bmp", "BMP图片"), ("mp3", "MP3音频"), ("wav", "WAV音频"),
   ("mp4", "MP4视频"), ("avi", "AVI视频"), ("mkv", "MKV视频"),
   ("zip", "ZIP压缩包"), ("rar", "RAR压缩包"), ("7z", "7Z压缩包"),
   ("js", "JavaScript文件"), ("css", "CSS样式文件"), ("html", "HTML文件"),
   ("json", "JSON文件"), ("xml", "XML文件"), ("sql", "SQL文件"),
   ("php", "PHP文件"), ("py", "Python文件"), ("java", "Java文件"),
   ("c", "C语言文件"), ("cpp", "C++文件"), ("cs", "C#文件"),
   ("go", "Go语言文件"), ("rb", "Ruby文件"), ("swift", "Swift文件"),
   ("kt", "Kotlin文件"), ("md", "Markdown文件"), ("log", "日志文件"),
   ("bak", "备份文件"), ("tmp", "临时文件")]

/-- Model of getFileDescription (src/server.js lines 463-509). -/
def getFileDescription (extension : String) : String :=
  match lookupA extension fileDescriptions with
  | some d => d
  | none => strToUpper extension ++ "文件"

/-! Result formatting (src/server.js lines 512-603). -/

/-- Formatted file-type item (src/server.js lines 522-535). -/
structure FileTypeOut where
  name : String
  type : String
  description : String
  count : Nat
  size : Nat
deriving DecidableEq

/-- Formatted folder item (src/server.js lines 538-557). -/
structure FolderOut where
  name : String
  path : List String
  size : Nat
deriving DecidableEq

/-- Formatted application item (src/server.js lines 560-593).  The synthetic
placeholder pushed at line 589 has no path field, hence the Option. -/
structure AppOut where
  name : String
  path : Option (List String)
  size : Nat
deriving DecidableEq

/-- The payload returned by formatScanResults (src/server.js lines 595-602). -/
structure ScanResult where
  totalFiles : Nat
  totalSize : Nat
  fileTypes : List FileTypeOut
  folders : List FolderOut
  applications : List AppOut
  errorCount : Nat
deriving DecidableEq

/-- Descending-by-size comparator `(a, b) => b.size - a.size` passed to the
(stable) Array.prototype.sort: a comes before b when its size is at least b's. -/
def sizeDescLe (sa sb : Nat) : Bool :=
  decide (sb ≤ sa)

/-- Formatting of stats.fileTypes (src/server.js lines 522-535).  The fallbacks
`data.name || ext` and `data.description || ...` test string falsiness; the
numeric fallbacks `data.count || 0` and `data.size || 0` are the identity on
Nat values and are dropped. -/
def formatFileTypes (stats : Stats) : List FileTypeOut :=
  ((((stats.fileTypes.map fun kv =>
      { name := if kv.2.name = "" then kv.1 else kv.2.name,
        type := kv.1,
        description := if kv.2.description = "" then getFileDescription kv.1 else kv.2.description,
        count := kv.2.count,
        size := kv.2.size : FileTypeOut })).filter
    fun item => decide (0 < item.size)).mergeSort
    fun a b => sizeDescLe a.size b.size).take 20

/-- Formatting of stats.folders (src/server.js lines 538-557).  The values are
always objects in the model, so the legacy bare-number branch is dead; the
filter keeps items with positive size and truthy (nonempty) name. -/
def formatFolders (stats : Stats) : List FolderOut :=
  ((((stats.folders.map fun kv =>
      { name := kv.2.name, path := kv.2.path, size := kv.2.size : FolderOut })).filter
    fun item => decide (0 < item.size) && item.name ≠ "").mergeSort
    fun a b => sizeDescLe a.size b.size).take 20

/-- Formatting of stats.applications before the placeholder insertion
(src/server.js lines 560-579). -/
def formatApplications (stats : Stats) : List AppOut :=
  ((((stats.applications.map fun kv =>
      { name := kv.2.name, path := some kv.2.path, size := kv.2.size : AppOut })).filter
    fun item => decide (0 < item.size)).mergeSort
    fun a b => sizeDescLe a.size b.size).take 20

/-- The synthetic application entry pushed when the list is empty
(src/server.js lines 588-593). -/
def placeholderApp : AppOut :=
  { name := "未识别应用", path := none, size := 1 }

/-- Model of formatScanResults (src/server.js lines 512-603). -/
def formatScanResults (stats : Stats) : ScanResult :=
  let fileTypes := formatFileTypes stats
  let folders := formatFolders stats
  let applications := formatApplications stats
  let applications := if applications.length = 0 then applications ++ [placeholderApp] else applications
  { totalFiles := stats.totalFiles, totalSize := stats.totalSize,
    fileTypes := fileTypes, folders := folders, applications := applications,
    errorCount := stats.errorCount }

/-! The message protocol (src/server.js, ws.send call sites). -/

/-- Outbound WebSocket messages. -/
inductive Msg where
  | scanStarted (taskId : String)
  | scanProgress (taskId : String) (scannedCount totalSize errorCount : Nat)
      (currentPath : List String) (percentage : Nat)
  | scanComplete (taskId : String) (stats : ScanResult) (duration : Nat)
  | scanError (taskId : String) (error : String)
  | scanStopped (taskId : String)
deriving DecidableEq

/-- Recognizer for scan_progress messages. -/
def Msg.isProgress : Msg → Bool
  | .scanProgress _ _ _ _ _ _ => true
  | _ => false

/-- Recognizer for scan_complete messages. -/
def Msg.isComplete : Msg → Bool
  | .scanComplete _ _ _ => true
  | _ => false

/-- Recognizer for scan_error messages. -/
def Msg.isError : Msg → Bool
  | .scanError _ _ => true
  | _ => false

/-- Recognizer for scan_started messages. -/
def Msg.isStarted : Msg → Bool
  | .scanStarted _ => true
  | _ => false

/-! The scan engine (src/server.js lines 218-409). -/

/-- Outcome of one scanDirectory invocation: the messages it sent, the
statistics object after it (mutated in place in the source, threaded here),
and whether the invocation ended by an exception escaping it. -/
structure WalkResult where
  msgs : List Msg
  stats : Stats
  thrown : Bool
deriving DecidableEq

/-- The ancestor-rollup loop (src/server.js lines 357-375).  Loop conditions in
source order: the string truthiness test on parentPath is always true (an
absolute path string is never empty) and is dropped; `parentPath !==
folderPath`; the string length comparison and `parentPath.startsWith(
task.drivePath)` become the component length comparison and component prefix
test, which agree with the string tests on the comparisons the loop performs
(both sides are component-prefixes of the path of the file being processed).
The final guard `newParent === parentPath` (dirname reached the filesystem
root) stops the loop. -/
def propagateUp (root folderPath : List String) (size : Nat) :
    List String → List (List String × FolderEntry) → List (List String × FolderEntry)
  | parentPath, folders =>
    if parentPath ≠ folderPath ∧ root.length ≤ parentPath.length ∧ root.isPrefixOf parentPath then
      if h : parentPath.dropLast = parentPath then
        bumpA parentPath
          { name := getFolderName parentPath, path := parentPath, size := 0 }
          (fun e => { e with size := e.size + size }) folders
      else
        propagateUp root folderPath size parentPath.dropLast
          (bumpA parentPath
            { name := getFolderName parentPath, path := parentPath, size := 0 }
            (fun e => { e with size := e.size + size }) folders)
    else folders
termination_by parentPath => parentPath.length
decreasing_by
  have hne : parentPath ≠ [] := by
    intro hnil
    exact h (by simp [hnil])
  have := List.length_dropLast parentPath
  have : 0 < parentPath.length := List.length_pos.mpr hne
  simp [List.length_dropLast]
  omega

/-- Folder-size accounting for one file (src/server.js lines 341-375): credit
the containing folder, then walk the dirname chain upward. -/
def updateFoldersForFile (root folderPath : List String) (size : Nat)
    (folders : List (List String × FolderEntry)) : List (List String × FolderEntry) :=
  let folders1 := bumpA folderPath
    { name := getFolderName folderPath, path := folderPath, size := 0 }
    (fun e => { e with size := e.size + size }) folders
  propagateUp root folderPath size folderPath.dropLast folders1

/-- The executable-extension set (src/server.js line 321). -/
def executableExtensions : List String :=
  ["exe", "msi", "app", "dmg", "pkg", "appx", "msix", "com"]

/-- The application-directory heuristic (src/server.js lines 322-325). -/
def isInAppDirectory (fullPath : List String) : Bool :=
  strIncludes (strToLower (joinPath fullPath)) "program files" ||
  strIncludes (strToLower (joinPath fullPath)) "applications" ||
  strIncludes (strToLower (joinPath fullPath)) "appdata" ||
  strIncludes (strToLower (joinPath fullPath)) "windows\\system32"

/-- The application classification test (src/server.js line 329). -/
def appMatch (fullPath : List String) (extension : String) : Bool :=
  executableExtensions.contains extension || isInAppDirectory fullPath

/-- Processing of one successfully stat-ed file entry (src/server.js lines
290-394), in source order: size and extension; totalFiles/totalSize; the
fileTypes bucket; the application bucket when classified; the folder rollup
(folderKey is dirname of the full path); scannedCount and the throttled
progress message.  The `taskId &&` truthiness guard becomes a nonemptiness
test. -/
def processFile (task : Task) (taskId : String) (dirPath : List String)
    (name : String) (size : Nat) (stats : Stats) : Stats × List Msg :=
  let fullPath := dirPath ++ [name]
  let extension := extensionOf name
  let stats := { stats with totalFiles := stats.totalFiles + 1,
                            totalSize := stats.totalSize + size }
  let stats := { stats with fileTypes :=
      (bumpA extension
        { name := extension, count := 0, size := 0,
          description := getFileDescription extension }
        (fun e => { e with count := e.count + 1, size := e.size + size })
        stats.fileTypes) }
  let appName := jsBasenameSuffix name ("." ++ extension)
  let stats :=
    { stats with applications :=
        (if appMatch fullPath extension then
          bumpA appName { name := appName, path := fullPath, size := 0 }
            (fun e => { e with size := e.size + size }) stats.applications
        else stats.applications) }
  let folderPath := fullPath.dropLast
  let stats := { stats with folders :=
      (updateFoldersForFile task.drivePath folderPath size stats.folders) }
  let stats := { stats with scannedCount := stats.scannedCount + 1 }
  let msgs :=
    if (stats.scannedCount % 50 == 0) && (taskId != "") && task.wsOpen then
      [Msg.scanProgress taskId stats.scannedCount stats.totalSize stats.errorCount
        fullPath (min 99 (stats.scannedCount / 100))]
    else []
  (stats, msgs)

/-- The entry loop of scanDirectory (src/server.js lines 264-403) together
with the surrounding try/catch (lines 234-408).  Exception flow, faithfully:
the abort throw at the loop head (line 268) is caught by the outer catch
(line 404), which increments errorCount and lets the invocation return
normally; a throw out of a recursive scanDirectory call (line 287) is caught
by the per-entry catch (line 396), which increments errorCount and continues
with the next sibling; a failing statSync (line 291) is likewise caught per
entry.  The recursive call at line 287 is the body of scanDirectory inlined
(the named wrapper is defined just below and is definitionally this inline
form). -/
def scanEntries (task : Task) (taskId : String) :
    List String → Nat → List FSNode → Stats → WalkResult
  | _, _, [], stats => ⟨[], stats, false⟩
  | dirPath, currentDepth, entry :: rest, stats =>
    if task.abort then
      ⟨[], { stats with errorCount := stats.errorCount + 1 }, false⟩
    else
      match entry with
      | FSNode.dir name readable children =>
        let fullPath := dirPath ++ [name]
        let stats1 := { stats with folders :=
            (ensureA fullPath { name := getFolderName fullPath, path := fullPath, size := 0 }
              stats.folders) }
        if currentDepth < task.scanDepth then
          let r :=
            if task.abort then (⟨[], stats1, true⟩ : WalkResult)
            else if readable then
              scanEntries task taskId fullPath (currentDepth + 1) children stats1
            else ⟨[], { stats1 with errorCount := stats1.errorCount + 1 }, false⟩
          let stats2 := if r.thrown then { r.stats with errorCount := r.stats.errorCount + 1 } else r.stats
          let rr := scanEntries task taskId dirPath currentDepth rest stats2
          ⟨r.msgs ++ rr.msgs, rr.stats, rr.thrown⟩
        else
          scanEntries task taskId dirPath currentDepth rest stats1
      | FSNode.file name stat =>
        match stat with
        | none =>
          scanEntries task taskId dirPath currentDepth rest
            { stats with errorCount := stats.errorCount + 1 }
        | some size =>
          let step := processFile task taskId dirPath name size stats
          let rr := scanEntries task taskId dirPath currentDepth rest step.1
          ⟨step.2 ++ rr.msgs, rr.stats, rr.thrown⟩

/-- Model of scanDirectory (src/server.js lines 218-409).  The leading abort
check (line 222) throws out of the invocation; the defensive existence checks
(lines 228, 239) always pass in the model (the path came from a listing or
was checked by startScan); the accessSync and readdirSync failure branches
(lines 246-262) collapse into `readable = false`: errorCount is incremented
and the invocation returns normally with the subtree unvisited. -/
def scanDirectory (task : Task) (taskId : String) (dirPath : List String)
    (readable : Bool) (children : List FSNode) (currentDepth : Nat)
    (stats : Stats) : WalkResult :=
  if task.abort then ⟨[], stats, true⟩
  else if readable then scanEntries task taskId dirPath currentDepth children stats
  else ⟨[], { stats with errorCount := stats.errorCount + 1 }, false⟩

/-- The terminal handlers chained onto the scanDirectory promise in startScan
(src/server.js lines 173-201): on normal resolution, scan_complete unless the
task was aborted; on rejection, scan_error unless the task was aborted.  The
only exception that can escape the walk is the abort throw, whose message is
the literal used at lines 224 and 268. -/
def terminalMsgs (task : Task) (taskId : String) (r : WalkResult)
    (durationSec : Nat) : List Msg :=
  if r.thrown then
    if task.abort then [] else [Msg.scanError taskId "扫描已中止"]
  else
    if task.abort then [] else [Msg.scanComplete taskId (formatScanResults r.stats) durationSec]

/-- What the metadata provider reports for the requested root path. -/
structure FS where
  rootExists : Bool
  rootReadable : Bool
  rootChildren : List FSNode

/-- The error text of the invalid-path message (src/server.js line 137); a
missing payload path prints as undefined. -/
def invalidPathMsg (drivePath : Option (List String)) : String :=
  "扫描路径无效: " ++ (match drivePath with | none => "undefined" | some p => joinPath p)

/-- Observable outcome of one start_scan request: every message sent to the
client, whether the task was ever inserted into scanTasks, and the final
statistics object when one was created. -/
structure RunOutcome where
  msgs : List Msg
  inserted : Bool
  finalStats : Option Stats
deriving DecidableEq

/-- Model of startScan (src/server.js lines 125-202).  A missing drivePath
(undefined or the falsy empty string) is `none`; scanDepth defaults to 2.
When the path is missing or existsSync fails, exactly the scan_error message
is sent and the task is never stored; otherwise the task is stored,
scan_started is sent, the walk runs, and the terminal handler fires.  The
abort flag is the value the walk observes at its checkpoints (the scan body
runs without yielding to the stop handler, so the flag is constant during
the walk). -/
def startScan (fs : FS) (drivePath : Option (List String)) (scanDepthOpt : Option Nat)
    (abort wsOpen : Bool) (taskId : String) (durationSec : Nat) : RunOutcome :=
  let scanDepth := scanDepthOpt.getD 2
  match drivePath with
  | none => ⟨[Msg.scanError taskId (invalidPathMsg none)], false, none⟩
  | some root =>
    if fs.rootExists then
      let task : Task := { drivePath := root, scanDepth := scanDepth,
                           abort := abort, wsOpen := wsOpen }
      let r := scanDirectory task taskId root fs.rootReadable fs.rootChildren 1 initStats
      ⟨Msg.scanStarted taskId :: (r.msgs ++ terminalMsgs task taskId r durationSec),
        true, some r.stats⟩
    else ⟨[Msg.scanError taskId (invalidPathMsg (some root))], false, none⟩

/-- Model of stopScan (src/server.js lines 205-215) as seen through one task:
given the registry lookup result, it acknowledges with scan_stopped and sets
the abort flag of the found task (the mutated task is the one the running
walk observes); an unknown taskId is a no-op. -/
def stopScan (found : Option Task) (taskId : String) : List Msg × Option Task :=
  match found with
  | some task => ([Msg.scanStopped taskId], some { task with abort := true })
  | none => ([], none)

/-! Specification-side traversal descriptions, used to state the claims. -/

/-- The files actually visited and successfully stat-ed by a non-aborted walk
of the given entries: pairs of full path and size.  Mirrors the walk: files
with failing stat are skipped, unreadable directories contribute nothing, and
directories at the depth ceiling are not descended into. -/
def visitedFiles (maxDepth : Nat) : List String → Nat → List FSNode → List (List String × Nat)
  | _, _, [] => []
  | dirPath, d, FSNode.file name (some size) :: rest =>
    (dirPath ++ [name], size) :: visitedFiles maxDepth dirPath d rest
  | dirPath, d, FSNode.file _ none :: rest => visitedFiles maxDepth dirPath d rest
  | dirPath, d, FSNode.dir name readable children :: rest =>
    (if d < maxDepth ∧ readable = true then
      visitedFiles maxDepth (dirPath ++ [name]) (d + 1) children
    else []) ++ visitedFiles maxDepth dirPath d rest

/-- Total size of a list of visited files. -/
def sumSizes (l : List (List String × Nat)) : Nat :=
  (l.map (fun pr => pr.2)).sum

/-- Claim-side folder aggregate: the summed sizes of the visited files lying
at or below the scan root whose path is in the subtree of the folder, i.e.
whose containing directory extends the folder path. -/
def subtreeFileSum (root folderKey : List String) (l : List (List String × Nat)) : Nat :=
  ((l.filter fun pr => root.isPrefixOf pr.1 && folderKey.isPrefixOf pr.1.dropLast).map
    (fun pr => pr.2)).sum

/-- The derived application key of a file name (src/server.js line 330). -/
def appKeyOfName (name : String) : String :=
  jsBasenameSuffix name ("." ++ extensionOf name)

/-- The application key a visited file contributes to, none when the file is
not classified as an application indicator. -/
def visitedAppKey (pr : List String × Nat) : Option String :=
  let name := pr.1.getLastD ""
  if appMatch pr.1 (extensionOf name) then some (appKeyOfName name) else none

/-- Claim-side application aggregate: summed sizes of the visited files
contributing to the given application key. -/
def appKeySum (a : String) (l : List (List String × Nat)) : Nat :=
  ((l.filter fun pr => visitedAppKey pr = some a).map (fun pr => pr.2)).sum

/-! Association-list lemmas. -/

section AssocLemmas

variable {κ : Type} {α : Type} [DecidableEq κ]

theorem lookupA_append (k : κ) (m₁ m₂ : List (κ × α)) :
    lookupA k (m₁ ++ m₂) =
      (match lookupA k m₁ with
        | some v => some v
        | none => lookupA k m₂) := by
  induction m₁ with
  | nil => simp [lookupA]
  | cons kv rest ih =>
    by_cases hk : kv.1 = k <;> simp [lookupA, hk, ih]

theorem lookupA_setA (k k' : κ) (f : α → α) (m : List (κ × α)) :
    lookupA k' (setA k f m) =
      if k' = k then (lookupA k m).map f else lookupA k' m := by
  induction m with
  | nil => simp [lookupA, setA]
  | cons kv rest ih =>
    by_cases hk : kv.1 = k
    · by_cases hk' : kv.1 = k'
      · simp [lookupA, setA, hk, hk', hk' ▸ hk]
      · have hne : ¬ k' = k := fun h => hk' (h ▸ hk)
        have hne' : ¬ k = k' := fun h => hne h.symm
        simp [lookupA, setA, hk, hk', hne, hne']
    · by_cases hk' : kv.1 = k'
      · have : ¬ k' = k := fun h => hk (h ▸ hk')
        simp [lookupA, setA, hk, hk', this]
      · simp [lookupA, setA, hk, hk', ih]

theorem setA_of_lookupA_none (k : κ) (f : α → α) (m : List (κ × α))
    (h : lookupA k m = none) : setA k f m = m := by
  induction m with
  | nil => simp [setA]
  | cons kv rest ih =>
    by_cases hk : kv.1 = k
    · simp [lookupA, hk] at h
    · simp [lookupA, hk] at h
      simp [setA, hk, ih h]

theorem setA_append_right (k : κ) (f : α → α) (m₁ m₂ : List (κ × α))
    (h : lookupA k m₁ = none) : setA k f (m₁ ++ m₂) = m₁ ++ setA k f m₂ := by
  induction m₁ with
  | nil => simp
  | cons kv rest ih =>
    by_cases hk : kv.1 = k
    · simp [lookupA, hk] at h
    · simp [lookupA, hk] at h
      simp [setA, hk, ih h]

theorem lookupA_bumpA (k k' : κ) (v : α) (f : α → α) (m : List (κ × α)) :
    lookupA k' (bumpA k v f m) =
      if k' = k then some (f (((lookupA k m).getD v))) else lookupA k' m := by
  unfold bumpA ensureA
  rcases hm : lookupA k m with _ | w
  · have hsel : (if (none : Option α).isSome = true then m else m ++ [(k, v)]) = m ++ [(k, v)] := by
      simp
    rw [hsel, setA_append_right k f m [(k, v)] hm, lookupA_append]
    by_cases hk : k' = k
    · subst hk
      simp [hm, setA, lookupA]
    · have hne' : ¬ k = k' := fun h => hk h.symm
      rcases hk' : lookupA k' m with _ | u <;> simp [hk, hk', setA, lookupA, hne']
  · have hsel : (if (some w).isSome = true then m else m ++ [(k, v)]) = m := by
      simp
    rw [hsel, lookupA_setA]
    by_cases hk : k' = k
    · subst hk
      simp [hm]
    · simp [hk]

theorem measAt_bumpA (g : α → Nat) (d : Nat) (k k' : κ) (v : α) (f : α → α)
    (m : List (κ × α)) (hf : ∀ x, g (f x) = g x + d) (hv : g v = 0) :
    measAt g k' (bumpA k v f m) = measAt g k' m + if k' = k then d else 0 := by
  unfold measAt
  rw [lookupA_bumpA]
  by_cases hk : k' = k
  · subst hk
    rcases hm : lookupA k' m with _ | w <;> simp [hm, hf, hv]
  · simp [hk]

theorem isSome_lookupA_bumpA (k k' : κ) (v : α) (f : α → α) (m : List (κ × α)) :
    (lookupA k' (bumpA k v f m)).isSome = true ↔
      k' = k ∨ (lookupA k' m).isSome = true := by
  rw [lookupA_bumpA]
  by_cases hk : k' = k <;> simp [hk]

theorem lookupA_ensureA (k k' : κ) (v : α) (m : List (κ × α)) :
    lookupA k' (ensureA k v m) =
      if (lookupA k m).isSome then lookupA k' m
      else (match lookupA k' m with
        | some w => some w
        | none => if k' = k then some v else none) := by
  unfold ensureA
  rcases hm : lookupA k m with _ | w
  · have hsel : (if (none : Option α).isSome = true then m else m ++ [(k, v)]) = m ++ [(k, v)] := by
      simp
    rw [hsel, lookupA_append]
    simp only [hm, Option.isSome_none, Bool.false_eq_true, if_false]
    rcases hk' : lookupA k' m with _ | u
    · by_cases hk : k' = k
      · subst hk
        simp [lookupA]
      · have hne' : ¬ k = k' := fun h => hk h.symm
        simp [lookupA, hk, hne']
    · simp
  · simp [hm]

theorem measAt_ensureA (g : α → Nat) (k k' : κ) (v : α) (m : List (κ × α))
    (hv : g v = 0) :
    measAt g k' (ensureA k v m) = measAt g k' m := by
  unfold measAt
  rw [lookupA_ensureA]
  rcases hm : lookupA k m with _ | w
  · simp [hm]
    rcases hk' : lookupA k' m with _ | u
    · by_cases hk : k' = k <;> simp [hk, hv]
    · simp
  · simp [hm]

theorem isSome_lookupA_ensureA (k k' : κ) (v : α) (m : List (κ × α)) :
    (lookupA k' (ensureA k v m)).isSome = true ↔
      k' = k ∨ (lookupA k' m).isSome = true := by
  rw [lookupA_ensureA]
  rcases hm : lookupA k m with _ | w
  · simp [hm]
    rcases hk' : lookupA k' m with _ | u
    · by_cases hk : k' = k <;> simp [hk]
    · simp
  · simp only [hm, Option.isSome_some, if_true]
    constructor
    · exact fun h => Or.inr h
    · rintro (hk | h)
      · subst hk
        simp [hm]
      · exact h

theorem sumMeas_setA_of_isSome (g : α → Nat) (d : Nat) (k : κ) (f : α → α)
    (m : List (κ × α)) (hf : ∀ x, g (f x) = g x + d)
    (h : (lookupA k m).isSome = true) :
    sumMeas g (setA k f m) = sumMeas g m + d := by
  induction m with
  | nil => simp [lookupA] at h
  | cons kv rest ih =>
    by_cases hk : kv.1 = k
    · simp [setA, hk, sumMeas, hf]
      omega
    · simp [lookupA, hk] at h
      simp [setA, hk, sumMeas] at ih ⊢
      rw [ih h]
      omega

omit [DecidableEq κ] in
theorem sumMeas_append (g : α → Nat) (m₁ m₂ : List (κ × α)) :
    sumMeas g (m₁ ++ m₂) = sumMeas g m₁ + sumMeas g m₂ := by
  simp [sumMeas]

theorem sumMeas_bumpA (g : α → Nat) (d : Nat) (k : κ) (v : α) (f : α → α)
    (m : List (κ × α)) (hf : ∀ x, g (f x) = g x + d) (hv : g v = 0) :
    sumMeas g (bumpA k v f m) = sumMeas g m + d := by
  unfold bumpA ensureA
  rcases hm : lookupA k m with _ | w
  · have hsel : (if (none : Option α).isSome = true then m else m ++ [(k, v)]) = m ++ [(k, v)] := by
      simp
    rw [hsel, setA_append_right k f m [(k, v)] hm, sumMeas_append]
    simp [setA, sumMeas, hf, hv]
  · have hs : (lookupA k m).isSome = true := by simp [hm]
    have hsel : (if (some w).isSome = true then m else m ++ [(k, v)]) = m := by
      simp
    rw [hsel]
    exact sumMeas_setA_of_isSome g d k f m hf hs

end AssocLemmas

/-! Prefix helpers for the ancestor-rollup analysis. -/

theorem prefix_dropLast_of_prefix_ne {F q : List String} (h : F <+: q) (hne : F ≠ q) :
    F <+: q.dropLast := by
  have hlt : F.length < q.length := by
    rcases Nat.lt_or_ge F.length q.length with hlt | hge
    · exact hlt
    · exfalso
      apply hne
      have := List.prefix_iff_eq_take.mp h
      have hlen : F.length = q.length := Nat.le_antisymm h.length_le hge
      rw [this, hlen, List.take_length]
  have hF : F = List.take F.length q := List.prefix_iff_eq_take.mp h
  have : List.take F.length q.dropLast = F := by
    rw [List.dropLast_eq_take, List.take_take]
    have : F.length ⊓ (q.length - 1) = F.length := by
      have : F.length ≤ q.length - 1 := by omega
      simp [Nat.min_eq_left this]
    rw [this, ← hF]
  rw [← this]
  exact List.take_prefix _ _

theorem prefix_of_prefix_dropLast {F q : List String} (h : F <+: q.dropLast) : F <+: q :=
  h.trans (List.dropLast_prefix q)

/-- The while-condition of the rollup loop, with the redundant string length
comparison absorbed: for lists, isPrefixOf already implies the length bound. -/
theorem rollup_cond_iff (root q d : List String) (hqd : q ≠ d) :
    (q ≠ d ∧ root.length ≤ q.length ∧ root.isPrefixOf q) ↔ root <+: q := by
  constructor
  · rintro ⟨-, -, hp⟩
    exact List.isPrefixOf_iff_prefix.mp hp
  · intro hp
    exact ⟨hqd, hp.length_le, List.isPrefixOf_iff_prefix.mpr hp⟩

/-- Size accounting of the ancestor-rollup loop: starting from parent q
(strictly shorter than the folder of the file), it credits exactly the
prefixes of q that extend the root path. -/
theorem measAt_propagateUp (root d : List String) (sz : Nat) (q : List String)
    (m : List (List String × FolderEntry)) (hq : q.length < d.length) (F : List String) :
    measAt FolderEntry.size F (propagateUp root d sz q m) =
      measAt FolderEntry.size F m +
        (if F <+: q ∧ root <+: F then sz else 0) := by
  suffices hgen : ∀ (n : Nat) (q : List String) (m : List (List String × FolderEntry)),
      q.length = n → q.length < d.length → ∀ F,
      measAt FolderEntry.size F (propagateUp root d sz q m) =
        measAt FolderEntry.size F m + (if F <+: q ∧ root <+: F then sz else 0) by
    exact hgen q.length q m rfl hq F
  intro n
  induction n using Nat.strong_induction_on with
  | _ n ih =>
  intro q m hqn hq F
  rw [propagateUp]
  by_cases hcond : (q ≠ d ∧ root.length ≤ q.length ∧ root.isPrefixOf q = true)
  · rw [if_pos hcond]
    have hroot : root <+: q := List.isPrefixOf_iff_prefix.mp hcond.2.2
    by_cases hstop : q.dropLast = q
    · rw [dif_pos hstop]
      have hqnil : q = [] := by
        rcases q with _ | ⟨a, q'⟩
        · rfl
        · exfalso
          have := congrArg List.length hstop
          simp [List.length_dropLast] at this
      subst hqnil
      have hrootnil : root = [] := List.prefix_nil.mp hroot
      rw [measAt_bumpA FolderEntry.size sz [] F
        { name := getFolderName [], path := [], size := 0 }
        (fun e => { e with size := e.size + sz }) m (fun x => rfl) rfl]
      congr 1
      by_cases hF : F = []
      · subst hF
        simp [hrootnil]
      · have : ¬ (F <+: ([] : List String)) := fun hc => hF (List.prefix_nil.mp hc)
        simp [hF, this]
    · rw [dif_neg hstop]
      have hqne : q ≠ [] := fun hc => hstop (by simp [hc])
      have hpos : 0 < q.length := List.length_pos.mpr hqne
      have hdl : q.dropLast.length = q.length - 1 := List.length_dropLast q
      rw [ih q.dropLast.length (by omega) q.dropLast _ rfl (by omega) F]
      rw [measAt_bumpA FolderEntry.size sz q F
        { name := getFolderName q, path := q, size := 0 }
        (fun e => { e with size := e.size + sz }) m (fun x => rfl) rfl]
      by_cases hF : F = q
      · subst hF
        have h1 : ¬ (F <+: F.dropLast) := by
          intro hc
          have := hc.length_le
          omega
        simp [h1, hroot]
      · have hsplit : (F <+: q ∧ root <+: F) ↔ (F <+: q.dropLast ∧ root <+: F) := by
          constructor
          · rintro ⟨h1, h2⟩
            exact ⟨prefix_dropLast_of_prefix_ne h1 hF, h2⟩
          · rintro ⟨h1, h2⟩
            exact ⟨prefix_of_prefix_dropLast h1, h2⟩
        rw [if_congr hsplit rfl rfl]
        simp [hF]
  · rw [if_neg hcond]
    have hqd : q ≠ d := by
      intro hc
      subst hc
      omega
    have hnroot : ¬ (root <+: q) := by
      intro hc
      exact hcond ((rollup_cond_iff root q d hqd).mpr hc)
    have : ¬ (F <+: q ∧ root <+: F) := by
      rintro ⟨h1, h2⟩
      exact hnroot (h2.trans h1)
    simp [this]

/-- Size accounting of the whole per-file folder update: when the containing
folder extends the scan root, the credited keys are exactly the folders F with
root <+: F <+: folderPath. -/
theorem measAt_updateFoldersForFile (root d : List String) (sz : Nat)
    (m : List (List String × FolderEntry)) (hrd : root <+: d) (F : List String) :
    measAt FolderEntry.size F (updateFoldersForFile root d sz m) =
      measAt FolderEntry.size F m +
        (if root <+: F ∧ F <+: d then sz else 0) := by
  unfold updateFoldersForFile
  rcases eq_or_ne d [] with hd | hd
  · subst hd
    have hrootnil : root = [] := List.prefix_nil.mp hrd
    rw [propagateUp]
    have hcond : ¬ (([] : List String).dropLast ≠ ([] : List String) ∧
        root.length ≤ ([] : List String).dropLast.length ∧
        root.isPrefixOf ([] : List String).dropLast = true) := by
      simp
    simp only [if_neg hcond]
    rw [measAt_bumpA FolderEntry.size sz [] F
      { name := getFolderName [], path := [], size := 0 }
      (fun e => { e with size := e.size + sz }) m (fun x => rfl) rfl]
    congr 1
    by_cases hF : F = []
    · subst hF
      simp [hrootnil]
    · have : ¬ (F <+: ([] : List String)) := fun hc => hF (List.prefix_nil.mp hc)
      simp [hF, this]
  · have hlen : d.dropLast.length < d.length := by
      have := List.length_dropLast d
      have : 0 < d.length := List.length_pos.mpr hd
      simp [List.length_dropLast]
      omega
    rw [measAt_propagateUp root d sz d.dropLast _ hlen F]
    rw [measAt_bumpA FolderEntry.size sz d F
      { name := getFolderName d, path := d, size := 0 }
      (fun e => { e with size := e.size + sz }) m (fun x => rfl) rfl]
    by_cases hF : F = d
    · subst hF
      have h1 : ¬ (F <+: F.dropLast) := by
        intro hc
        have := hc.length_le
        have := List.length_dropLast F
        have hpos : 0 < F.length := List.length_pos.mpr hd
        omega
      simp [h1, hrd]
    · have hsplit : (F <+: d.dropLast ∧ root <+: F) ↔ (root <+: F ∧ F <+: d) := by
        constructor
        · rintro ⟨h1, h2⟩
          exact ⟨h2, prefix_of_prefix_dropLast h1⟩
        · rintro ⟨h1, h2⟩
          exact ⟨prefix_dropLast_of_prefix_ne h2 hF, h1⟩
      rw [if_congr hsplit rfl rfl]
      simp [hF]

/-- Keys present after the rollup loop: only keys extending the root path are
ever created by it. -/
theorem isSome_propagateUp (root d : List String) (sz : Nat) (q : List String)
    (m : List (List String × FolderEntry)) (F : List String)
    (h : (lookupA F (propagateUp root d sz q m)).isSome = true) :
    (lookupA F m).isSome = true ∨ root <+: F := by
  suffices hgen : ∀ (n : Nat) (q : List String) (m : List (List String × FolderEntry)),
      q.length = n →
      (lookupA F (propagateUp root d sz q m)).isSome = true →
      (lookupA F m).isSome = true ∨ root <+: F by
    exact hgen q.length q m rfl h
  clear h q m
  intro n
  induction n using Nat.strong_induction_on with
  | _ n ih =>
  intro q m hqn h
  rw [propagateUp] at h
  by_cases hcond : (q ≠ d ∧ root.length ≤ q.length ∧ root.isPrefixOf q = true)
  · rw [if_pos hcond] at h
    have hroot : root <+: q := List.isPrefixOf_iff_prefix.mp hcond.2.2
    by_cases hstop : q.dropLast = q
    · rw [dif_pos hstop] at h
      rcases (isSome_lookupA_bumpA q F _ _ m).mp h with hF | hm
      · exact Or.inr (hF ▸ hroot)
      · exact Or.inl hm
    · rw [dif_neg hstop] at h
      have hqne : q ≠ [] := fun hc => hstop (by simp [hc])
      have hpos : 0 < q.length := List.length_pos.mpr hqne
      have hdl : q.dropLast.length = q.length - 1 := List.length_dropLast q
      rcases ih q.dropLast.length (by omega) q.dropLast _ rfl h with hm | hF
      · rcases (isSome_lookupA_bumpA q F _ _ m).mp hm with hF | hm'
        · exact Or.inr (hF ▸ hroot)
        · exact Or.inl hm'
      · exact Or.inr hF
  · rw [if_neg hcond] at h
    exact Or.inl h

/-- Keys present after the per-file folder update, when the containing folder
extends the root path. -/
theorem isSome_updateFoldersForFile (root d : List String) (sz : Nat)
    (m : List (List String × FolderEntry)) (hrd : root <+: d) (F : List String)
    (h : (lookupA F (updateFoldersForFile root d sz m)).isSome = true) :
    (lookupA F m).isSome = true ∨ root <+: F := by
  unfold updateFoldersForFile at h
  rcases isSome_propagateUp root d sz d.dropLast _ F h with hm | hF
  · rcases (isSome_lookupA_bumpA d F _ _ m).mp hm with hF | hm'
    · exact Or.inr (hF ▸ hrd)
    · exact Or.inl hm'
  · exact Or.inr hF

/-- The last component of a joined file path is the file name. -/
theorem getLastD_append_singleton (l : List String) (a : String) :
    (l ++ [a]).getLastD "" = a := by
  rw [List.getLastD_eq_getLast?, List.getLast?_concat]
  rfl

/-- Every visited file path is the walk directory extended by at least the
file name. -/
theorem visitedFiles_shape (maxDepth : Nat) (dirPath : List String) (d : Nat)
    (es : List FSNode) :
    ∀ pr ∈ visitedFiles maxDepth dirPath d es,
      ∃ mid name, pr.1 = dirPath ++ mid ++ [name] := by
  induction dirPath, d, es using visitedFiles.induct maxDepth with
  | case1 dirPath d => simp [visitedFiles]
  | case2 dirPath d name size rest ih =>
    intro pr hpr
    rw [visitedFiles] at hpr
    rcases List.mem_cons.mp hpr with hpr | hpr
    · exact ⟨[], name, by simp [hpr]⟩
    · exact ih pr hpr
  | case3 dirPath d name rest ih =>
    intro pr hpr
    rw [visitedFiles] at hpr
    exact ih pr hpr
  | case4 dirPath d name readable children rest ih1 ih2 =>
    intro pr hpr
    rw [visitedFiles] at hpr
    rcases List.mem_append.mp hpr with hpr | hpr
    · by_cases hcond : (d < maxDepth ∧ readable = true)
      · rw [if_pos hcond] at hpr
        rcases ih1 pr hpr with ⟨mid, nm, heq⟩
        exact ⟨name :: mid, nm, by simp [heq]⟩
      · rw [if_neg hcond] at hpr
        simp at hpr
    · exact ih2 pr hpr

/-- Splitting the total size of visited files over list concatenation. -/
theorem sumSizes_append (l₁ l₂ : List (List String × Nat)) :
    sumSizes (l₁ ++ l₂) = sumSizes l₁ + sumSizes l₂ := by
  simp [sumSizes]

/-- Splitting a folder credit sum over list concatenation. -/
theorem subtreeFileSum_append (root F : List String) (l₁ l₂ : List (List String × Nat)) :
    subtreeFileSum root F (l₁ ++ l₂) = subtreeFileSum root F l₁ + subtreeFileSum root F l₂ := by
  simp [subtreeFileSum]

/-- Splitting an application credit sum over list concatenation. -/
theorem appKeySum_append (a : String) (l₁ l₂ : List (List String × Nat)) :
    appKeySum a (l₁ ++ l₂) = appKeySum a l₁ + appKeySum a l₂ := by
  simp [appKeySum]

/-- Folder credit restricted to the walk: the sum over visited files of the
per-file credit decided by the rollup conditions. -/
def folderCredit (root F : List String) (l : List (List String × Nat)) : Nat :=
  ((l.filter fun pr => root.isPrefixOf F && F.isPrefixOf pr.1.dropLast).map
    (fun pr => pr.2)).sum

theorem folderCredit_append (root F : List String) (l₁ l₂ : List (List String × Nat)) :
    folderCredit root F (l₁ ++ l₂) = folderCredit root F l₁ + folderCredit root F l₂ := by
  simp [folderCredit]

theorem folderCredit_cons_file (root F dirPath : List String) (name : String) (sz : Nat)
    (l : List (List String × Nat)) :
    folderCredit root F ((dirPath ++ [name], sz) :: l) =
      (if root <+: F ∧ F <+: dirPath then sz else 0) + folderCredit root F l := by
  unfold folderCredit
  rw [List.filter_cons]
  have hbool : (root.isPrefixOf F && F.isPrefixOf ((dirPath ++ [name], sz) : List String × Nat).1.dropLast) = true ↔
      (root <+: F ∧ F <+: dirPath) := by
    simp [List.dropLast_concat, List.isPrefixOf_iff_prefix]
  by_cases hc : (root <+: F ∧ F <+: dirPath)
  · rw [if_pos (hbool.mpr hc)]
    simp [hc]
  · rw [if_neg (fun hb => hc (hbool.mp hb))]
    simp [hc]

theorem appKeySum_cons (a : String) (pr : List String × Nat) (l : List (List String × Nat)) :
    appKeySum a (pr :: l) =
      (if visitedAppKey pr = some a then pr.2 else 0) + appKeySum a l := by
  unfold appKeySum
  by_cases hc : visitedAppKey pr = some a <;> simp [List.filter_cons, hc]

/-- Full characterization of the statistics object produced by one file step. -/
theorem processFile_stats (task : Task) (taskId : String) (dirPath : List String)
    (name : String) (size : Nat) (stats : Stats) :
    (processFile task taskId dirPath name size stats).1 =
      { totalFiles := stats.totalFiles + 1,
        totalSize := stats.totalSize + size,
        fileTypes := (bumpA (extensionOf name)
          { name := extensionOf name, count := 0, size := 0,
            description := getFileDescription (extensionOf name) }
          (fun e => { e with count := e.count + 1, size := e.size + size })
          stats.fileTypes),
        folders := (updateFoldersForFile task.drivePath dirPath size stats.folders),
        applications :=
          (if appMatch (dirPath ++ [name]) (extensionOf name) then
            bumpA (appKeyOfName name)
              { name := appKeyOfName name, path := dirPath ++ [name], size := 0 }
              (fun e => { e with size := e.size + size }) stats.applications
          else stats.applications),
        scannedCount := stats.scannedCount + 1,
        errorCount := stats.errorCount } := by
  unfold processFile appKeyOfName
  simp [List.dropLast_concat]

/-- Characterization of the messages one file step emits. -/
theorem processFile_msgs (task : Task) (taskId : String) (dirPath : List String)
    (name : String) (size : Nat) (stats : Stats) :
    (processFile task taskId dirPath name size stats).2 =
      (if ((stats.scannedCount + 1) % 50 == 0) && (taskId != "") && task.wsOpen then
        [Msg.scanProgress taskId (stats.scannedCount + 1) (stats.totalSize + size)
          stats.errorCount (dirPath ++ [name]) (min 99 ((stats.scannedCount + 1) / 100))]
      else []) := by
  unfold processFile
  rfl

/-- Every message a file step emits is a progress message. -/
theorem processFile_msgs_progress (task : Task) (taskId : String) (dirPath : List String)
    (name : String) (size : Nat) (stats : Stats) :
    ∀ m ∈ (processFile task taskId dirPath name size stats).2, m.isProgress = true := by
  intro m hm
  rw [processFile_msgs] at hm
  split at hm
  · rcases List.mem_singleton.mp hm with rfl
    rfl
  · simp at hm

/-! Unfolding equations of the walk, one per branch of the source. -/

theorem sumSizes_nil : sumSizes [] = 0 := rfl

theorem sumSizes_cons (pr : List String × Nat) (l : List (List String × Nat)) :
    sumSizes (pr :: l) = pr.2 + sumSizes l := by
  simp [sumSizes]

theorem folderCredit_nil (root F : List String) : folderCredit root F [] = 0 := rfl

theorem appKeySum_nil (a : String) : appKeySum a [] = 0 := rfl

/-- The application key of a visited file in terms of its name. -/
theorem visitedAppKey_file (dirPath : List String) (name : String) (sz : Nat) :
    visitedAppKey (dirPath ++ [name], sz) =
      (if appMatch (dirPath ++ [name]) (extensionOf name) then
        some (appKeyOfName name)
      else none) := by
  unfold visitedAppKey
  rw [getLastD_append_singleton]

theorem scanEntries_nil (task : Task) (taskId : String) (dirPath : List String)
    (currentDepth : Nat) (stats : Stats) :
    scanEntries task taskId dirPath currentDepth [] stats = ⟨[], stats, false⟩ := by
  rw [scanEntries.eq_def]

theorem scanEntries_cons_abort (task : Task) (taskId : String) (dirPath : List String)
    (currentDepth : Nat) (entry : FSNode) (rest : List FSNode) (stats : Stats)
    (hab : task.abort = true) :
    scanEntries task taskId dirPath currentDepth (entry :: rest) stats =
      ⟨[], { stats with errorCount := stats.errorCount + 1 }, false⟩ := by
  rw [scanEntries.eq_def]
  simp [hab]

theorem scanEntries_file_err (task : Task) (taskId : String) (dirPath : List String)
    (currentDepth : Nat) (name : String) (rest : List FSNode) (stats : Stats)
    (hab : task.abort = false) :
    scanEntries task taskId dirPath currentDepth (FSNode.file name none :: rest) stats =
      scanEntries task taskId dirPath currentDepth rest
        { stats with errorCount := stats.errorCount + 1 } := by
  rw [scanEntries]
  simp [hab]

theorem scanEntries_file_ok (task : Task) (taskId : String) (dirPath : List String)
    (currentDepth : Nat) (name : String) (size : Nat) (rest : List FSNode) (stats : Stats)
    (hab : task.abort = false) :
    scanEntries task taskId dirPath currentDepth (FSNode.file name (some size) :: rest) stats =
      ⟨(processFile task taskId dirPath name size stats).2 ++
          (scanEntries task taskId dirPath currentDepth rest
            (processFile task taskId dirPath name size stats).1).msgs,
        (scanEntries task taskId dirPath currentDepth rest
          (processFile task taskId dirPath name size stats).1).stats,
        (scanEntries task taskId dirPath currentDepth rest
          (processFile task taskId dirPath name size stats).1).thrown⟩ := by
  rw [scanEntries]
  simp [hab]

theorem scanEntries_dir_shallow (task : Task) (taskId : String) (dirPath : List String)
    (currentDepth : Nat) (name : String) (readable : Bool) (children rest : List FSNode)
    (stats : Stats) (hab : task.abort = false) (hd : ¬ currentDepth < task.scanDepth) :
    scanEntries task taskId dirPath currentDepth
        (FSNode.dir name readable children :: rest) stats =
      scanEntries task taskId dirPath currentDepth rest
        { stats with folders :=
            (ensureA (dirPath ++ [name])
              { name := getFolderName (dirPath ++ [name]), path := dirPath ++ [name], size := 0 }
              stats.folders) } := by
  rw [scanEntries]
  simp [hab, hd]

theorem scanEntries_dir_deep (task : Task) (taskId : String) (dirPath : List String)
    (currentDepth : Nat) (name : String) (readable : Bool) (children rest : List FSNode)
    (stats : Stats) (hab : task.abort = false) (hd : currentDepth < task.scanDepth) :
    scanEntries task taskId dirPath currentDepth
        (FSNode.dir name readable children :: rest) stats =
      (let stats1 : Stats := { stats with folders :=
          (ensureA (dirPath ++ [name])
            { name := getFolderName (dirPath ++ [name]), path := dirPath ++ [name], size := 0 }
            stats.folders) }
       let r := scanDirectory task taskId (dirPath ++ [name]) readable children
          (currentDepth + 1) stats1
       let stats2 := if r.thrown then { r.stats with errorCount := r.stats.errorCount + 1 }
          else r.stats
       let rr := scanEntries task taskId dirPath currentDepth rest stats2
       ⟨r.msgs ++ rr.msgs, rr.stats, rr.thrown⟩) := by
  rw [scanEntries]
  simp [hab, hd, scanDirectory]

theorem scanDirectory_abort (task : Task) (taskId : String) (dirPath : List String)
    (readable : Bool) (children : List FSNode) (currentDepth : Nat) (stats : Stats)
    (hab : task.abort = true) :
    scanDirectory task taskId dirPath readable children currentDepth stats =
      ⟨[], stats, true⟩ := by
  unfold scanDirectory
  simp [hab]

theorem scanDirectory_readable (task : Task) (taskId : String) (dirPath : List String)
    (children : List FSNode) (currentDepth : Nat) (stats : Stats)
    (hab : task.abort = false) :
    scanDirectory task taskId dirPath true children currentDepth stats =
      scanEntries task taskId dirPath currentDepth children stats := by
  unfold scanDirectory
  simp [hab]

theorem scanDirectory_unreadable (task : Task) (taskId : String) (dirPath : List String)
    (children : List FSNode) (currentDepth : Nat) (stats : Stats)
    (hab : task.abort = false) :
    scanDirectory task taskId dirPath false children currentDepth stats =
      ⟨[], { stats with errorCount := stats.errorCount + 1 }, false⟩ := by
  unfold scanDirectory
  simp [hab]

/-! Per-file effect of processFile on each aggregate, stated against the
visited-file description. -/

theorem processFile_apps_measAt (task : Task) (taskId : String) (dirPath : List String)
    (name : String) (size : Nat) (stats : Stats) (a : String) :
    measAt AppEntry.size a (processFile task taskId dirPath name size stats).1.applications =
      measAt AppEntry.size a stats.applications +
        (if visitedAppKey (dirPath ++ [name], size) = some a then size else 0) := by
  rw [processFile_stats, visitedAppKey_file]
  by_cases hm : appMatch (dirPath ++ [name]) (extensionOf name) = true
  · simp only [hm, if_true]
    rw [measAt_bumpA AppEntry.size size (appKeyOfName name) a
      { name := appKeyOfName name, path := dirPath ++ [name], size := 0 }
      (fun e => { e with size := e.size + size }) stats.applications (fun x => rfl) rfl]
    congr 1
    by_cases ha : a = appKeyOfName name
    · simp [ha]
    · have ha' : ¬ (appKeyOfName name = a) := fun h => ha h.symm
      simp [ha, ha']
  · simp only [Bool.not_eq_true] at hm
    simp [hm]

theorem processFile_apps_isSome (task : Task) (taskId : String) (dirPath : List String)
    (name : String) (size : Nat) (stats : Stats) (a : String) :
    (lookupA a (processFile task taskId dirPath name size stats).1.applications).isSome = true ↔
      ((lookupA a stats.applications).isSome = true ∨
        visitedAppKey (dirPath ++ [name], size) = some a) := by
  rw [processFile_stats, visitedAppKey_file]
  by_cases hm : appMatch (dirPath ++ [name]) (extensionOf name) = true
  · simp only [hm, if_true]
    rw [isSome_lookupA_bumpA (appKeyOfName name) a
      { name := appKeyOfName name, path := dirPath ++ [name], size := 0 }
      (fun e => { e with size := e.size + size }) stats.applications]
    constructor
    · rintro (h | h)
      · exact Or.inr (by simp [h])
      · exact Or.inl h
    · rintro (h | h)
      · exact Or.inr h
      · simp at h
        exact Or.inl h.symm
  · simp only [Bool.not_eq_true] at hm
    simp [hm]

theorem processFile_folders_measAt (task : Task) (taskId : String) (dirPath : List String)
    (name : String) (size : Nat) (stats : Stats)
    (hrd : task.drivePath <+: dirPath) (F : List String) :
    measAt FolderEntry.size F (processFile task taskId dirPath name size stats).1.folders =
      measAt FolderEntry.size F stats.folders +
        (if task.drivePath <+: F ∧ F <+: dirPath then size else 0) := by
  rw [processFile_stats]
  exact measAt_updateFoldersForFile task.drivePath dirPath size stats.folders hrd F

theorem processFile_folders_isSome (task : Task) (taskId : String) (dirPath : List String)
    (name : String) (size : Nat) (stats : Stats)
    (hrd : task.drivePath <+: dirPath) (F : List String)
    (h : (lookupA F (processFile task taskId dirPath name size stats).1.folders).isSome = true) :
    (lookupA F stats.folders).isSome = true ∨ task.drivePath <+: F := by
  rw [processFile_stats] at h
  exact isSome_updateFoldersForFile task.drivePath dirPath size stats.folders hrd F h

theorem processFile_fileTypes_count (task : Task) (taskId : String) (dirPath : List String)
    (name : String) (size : Nat) (stats : Stats) :
    sumMeas FileTypeEntry.count (processFile task taskId dirPath name size stats).1.fileTypes =
      sumMeas FileTypeEntry.count stats.fileTypes + 1 := by
  rw [processFile_stats]
  exact sumMeas_bumpA FileTypeEntry.count 1 (extensionOf name)
    { name := extensionOf name, count := 0, size := 0,
      description := getFileDescription (extensionOf name) }
    (fun e => { e with count := e.count + 1, size := e.size + size })
    stats.fileTypes (fun x => rfl) rfl

theorem processFile_fileTypes_size (task : Task) (taskId : String) (dirPath : List String)
    (name : String) (size : Nat) (stats : Stats) :
    sumMeas FileTypeEntry.size (processFile task taskId dirPath name size stats).1.fileTypes =
      sumMeas FileTypeEntry.size stats.fileTypes + size := by
  rw [processFile_stats]
  exact sumMeas_bumpA FileTypeEntry.size size (extensionOf name)
    { name := extensionOf name, count := 0, size := 0,
      description := getFileDescription (extensionOf name) }
    (fun e => { e with count := e.count + 1, size := e.size + size })
    stats.fileTypes (fun x => rfl) rfl

/-- Joint specification of one entry-loop invocation when the abort flag is
clear: it does not throw, it emits only progress messages, and its effect on
every aggregate is determined by the visited files. -/
def WalkAgrees (task : Task) (taskId : String) (dirPath : List String)
    (currentDepth : Nat) (es : List FSNode) (stats : Stats) : Prop :=
  let w := scanEntries task taskId dirPath currentDepth es stats
  let vis := visitedFiles task.scanDepth dirPath currentDepth es
  w.thrown = false ∧
  (∀ m ∈ w.msgs, m.isProgress = true) ∧
  w.stats.totalSize = stats.totalSize + sumSizes vis ∧
  w.stats.totalFiles = stats.totalFiles + vis.length ∧
  w.stats.scannedCount = stats.scannedCount + vis.length ∧
  sumMeas FileTypeEntry.count w.stats.fileTypes =
    sumMeas FileTypeEntry.count stats.fileTypes + vis.length ∧
  sumMeas FileTypeEntry.size w.stats.fileTypes =
    sumMeas FileTypeEntry.size stats.fileTypes + sumSizes vis ∧
  (∀ a, measAt AppEntry.size a w.stats.applications =
    measAt AppEntry.size a stats.applications + appKeySum a vis) ∧
  (∀ a, (lookupA a w.stats.applications).isSome = true ↔
    ((lookupA a stats.applications).isSome = true ∨ ∃ pr ∈ vis, visitedAppKey pr = some a)) ∧
  (task.drivePath <+: dirPath →
    (∀ F, measAt FolderEntry.size F w.stats.folders =
      measAt FolderEntry.size F stats.folders + folderCredit task.drivePath F vis) ∧
    (∀ F, (lookupA F w.stats.folders).isSome = true →
      (lookupA F stats.folders).isSome = true ∨ task.drivePath <+: F))

/-- Main induction over the traversal: every non-aborted entry-loop invocation
satisfies the joint specification. -/
theorem scanEntries_walkAgrees (task : Task) (taskId : String) (hab : task.abort = false) :
    ∀ (es : List FSNode) (dirPath : List String) (currentDepth : Nat) (stats : Stats),
      WalkAgrees task taskId dirPath currentDepth es stats := by
  suffices hgen : ∀ (n : Nat) (es : List FSNode), sizeOf es = n →
      ∀ (dirPath : List String) (currentDepth : Nat) (stats : Stats),
        WalkAgrees task taskId dirPath currentDepth es stats by
    exact fun es => hgen (sizeOf es) es rfl
  intro n
  induction n using Nat.strong_induction_on with
  | _ n ih =>
  intro es hsz dirPath currentDepth stats
  rcases es with _ | ⟨entry, rest⟩
  · -- empty listing: nothing happens
    unfold WalkAgrees
    rw [scanEntries_nil]
    rw [show visitedFiles task.scanDepth dirPath currentDepth [] = [] from by rw [visitedFiles]]
    refine ⟨rfl, by simp, by simp [sumSizes_nil], by simp, by simp, by simp, by simp [sumSizes_nil],
      by simp [appKeySum_nil], by simp, ?_⟩
    intro _
    exact ⟨fun F => by simp [folderCredit_nil], fun F h => Or.inl h⟩
  · have hrest : sizeOf rest < n := by
      rw [← hsz]
      simp only [List.cons.sizeOf_spec]
      omega
    rcases entry with ⟨name, stat⟩ | ⟨name, readable, children⟩
    · rcases stat with _ | size
      · -- file whose metadata query fails: errorCount only
        have IH := ih (sizeOf rest) hrest rest rfl dirPath currentDepth
          { stats with errorCount := stats.errorCount + 1 }
        unfold WalkAgrees at IH ⊢
        rw [scanEntries_file_err task taskId dirPath currentDepth name rest stats hab]
        rw [show visitedFiles task.scanDepth dirPath currentDepth (FSNode.file name none :: rest) =
          visitedFiles task.scanDepth dirPath currentDepth rest from by rw [visitedFiles]]
        simpa using IH
      · -- file processed successfully
        have IH := ih (sizeOf rest) hrest rest rfl dirPath currentDepth
          (processFile task taskId dirPath name size stats).1
        unfold WalkAgrees at IH ⊢
        obtain ⟨IHthrown, IHmsgs, IHsize, IHfiles, IHscan, IHftc, IHfts, IHapp, IHappk, IHfold⟩ := IH
        rw [scanEntries_file_ok task taskId dirPath currentDepth name size rest stats hab]
        rw [show visitedFiles task.scanDepth dirPath currentDepth
            (FSNode.file name (some size) :: rest) =
          (dirPath ++ [name], size) :: visitedFiles task.scanDepth dirPath currentDepth rest from by
            rw [visitedFiles]]
        have hPF := processFile_stats task taskId dirPath name size stats
        have hs1 : (processFile task taskId dirPath name size stats).1.totalSize =
            stats.totalSize + size := by rw [hPF]
        have hf1 : (processFile task taskId dirPath name size stats).1.totalFiles =
            stats.totalFiles + 1 := by rw [hPF]
        have hc1 : (processFile task taskId dirPath name size stats).1.scannedCount =
            stats.scannedCount + 1 := by rw [hPF]
        refine ⟨IHthrown, ?_, ?_, ?_, ?_, ?_, ?_, ?_, ?_, ?_⟩
        · intro m hm
          rcases List.mem_append.mp hm with hm | hm
          · exact processFile_msgs_progress task taskId dirPath name size stats m hm
          · exact IHmsgs m hm
        · rw [IHsize, hs1, sumSizes_cons]
          omega
        · rw [IHfiles, hf1]
          simp only [List.length_cons]
          omega
        · rw [IHscan, hc1]
          simp only [List.length_cons]
          omega
        · rw [IHftc, processFile_fileTypes_count]
          simp only [List.length_cons]
          omega
        · rw [IHfts, processFile_fileTypes_size, sumSizes_cons]
          omega
        · intro a
          rw [IHapp a, processFile_apps_measAt, appKeySum_cons]
          simp only []
          omega
        · intro a
          rw [IHappk a, processFile_apps_isSome]
          simp only [List.mem_cons]
          constructor
          · rintro ((h | h) | h)
            · exact Or.inl h
            · exact Or.inr ⟨(dirPath ++ [name], size), Or.inl rfl, h⟩
            · rcases h with ⟨pr, hpr, hk⟩
              exact Or.inr ⟨pr, Or.inr hpr, hk⟩
          · rintro (h | ⟨pr, hpr | hpr, hk⟩)
            · exact Or.inl (Or.inl h)
            · exact Or.inl (Or.inr (hpr ▸ hk))
            · exact Or.inr ⟨pr, hpr, hk⟩
        · intro hrd
          refine ⟨fun F => ?_, fun F h => ?_⟩
          · rw [(IHfold hrd).1 F, processFile_folders_measAt task taskId dirPath name size stats hrd F,
              folderCredit_cons_file]
            omega
          · rcases (IHfold hrd).2 F h with h1 | h1
            · exact processFile_folders_isSome task taskId dirPath name size stats hrd F h1
            · exact Or.inr h1
    · -- directory entry
      have hchildren : sizeOf children < n := by
        rw [← hsz]
        simp only [List.cons.sizeOf_spec, FSNode.dir.sizeOf_spec]
        omega
      by_cases hd : currentDepth < task.scanDepth
      · -- descend
        rcases hreadable : readable with _ | _
        · -- unreadable subdirectory: folder recorded, errorCount bumped, subtree skipped
          have IH := ih (sizeOf rest) hrest rest rfl dirPath currentDepth
            { stats with
                folders := (ensureA (dirPath ++ [name])
                  { name := getFolderName (dirPath ++ [name]), path := dirPath ++ [name],
                    size := 0 } stats.folders),
                errorCount := stats.errorCount + 1 }
          unfold WalkAgrees at IH ⊢
          obtain ⟨IHthrown, IHmsgs, IHsize, IHfiles, IHscan, IHftc, IHfts, IHapp, IHappk, IHfold⟩ := IH
          rw [scanEntries_dir_deep task taskId dirPath currentDepth name false children rest stats hab hd]
          simp only [scanDirectory_unreadable task taskId (dirPath ++ [name]) children
            (currentDepth + 1) _ hab]
          rw [show visitedFiles task.scanDepth dirPath currentDepth
              (FSNode.dir name false children :: rest) =
            (if currentDepth < task.scanDepth ∧ false = true then
              visitedFiles task.scanDepth (dirPath ++ [name]) (currentDepth + 1) children
            else []) ++ visitedFiles task.scanDepth dirPath currentDepth rest from by
              rw [visitedFiles]]
          simp only [Bool.false_eq_true, and_false, if_false, List.nil_append]
          refine ⟨IHthrown, ?_, by simpa using IHsize, by simpa using IHfiles,
            by simpa using IHscan, by simpa using IHftc, by simpa using IHfts,
            fun a => by simpa using IHapp a, fun a => ?_, fun hrd => ?_⟩
          · intro m hm
            exact IHmsgs m hm
          · rw [show (lookupA a stats.applications).isSome =
              (lookupA a ({ stats with
                folders := (ensureA (dirPath ++ [name])
                  { name := getFolderName (dirPath ++ [name]), path := dirPath ++ [name],
                    size := 0 } stats.folders),
                errorCount := stats.errorCount + 1 } : Stats).applications).isSome from rfl]
            exact IHappk a
          · have hrd' : task.drivePath <+: dirPath ++ [name] :=
              hrd.trans (List.prefix_append dirPath [name])
            refine ⟨fun F => ?_, fun F h => ?_⟩
            · rw [(IHfold hrd).1 F]
              have hens : measAt FolderEntry.size F
                  (ensureA (dirPath ++ [name])
                    { name := getFolderName (dirPath ++ [name]), path := dirPath ++ [name],
                      size := 0 } stats.folders) = measAt FolderEntry.size F stats.folders :=
                measAt_ensureA FolderEntry.size (dirPath ++ [name]) F _ stats.folders rfl
              simp [hens]
            · rcases (IHfold hrd).2 F h with h1 | h1
              · rcases (isSome_lookupA_ensureA (dirPath ++ [name]) F
                  { name := getFolderName (dirPath ++ [name]), path := dirPath ++ [name],
                    size := 0 } stats.folders).mp (by simpa using h1) with h2 | h2
                · exact Or.inr (h2 ▸ hrd')
                · exact Or.inl h2
              · exact Or.inr h1
        · -- readable subdirectory: recurse, then the siblings
          have IHc := ih (sizeOf children) hchildren children rfl (dirPath ++ [name])
            (currentDepth + 1)
            { stats with
                folders := (ensureA (dirPath ++ [name])
                  { name := getFolderName (dirPath ++ [name]), path := dirPath ++ [name],
                    size := 0 } stats.folders) }
          unfold WalkAgrees at IHc
          obtain ⟨IHcthrown, IHcmsgs, IHcsize, IHcfiles, IHcscan, IHcftc, IHcfts, IHcapp,
            IHcappk, IHcfold⟩ := IHc
          have IHr := ih (sizeOf rest) hrest rest rfl dirPath currentDepth
            (scanEntries task taskId (dirPath ++ [name]) (currentDepth + 1) children
              { stats with
                  folders := (ensureA (dirPath ++ [name])
                    { name := getFolderName (dirPath ++ [name]), path := dirPath ++ [name],
                      size := 0 } stats.folders) }).stats
          unfold WalkAgrees at IHr ⊢
          obtain ⟨IHrthrown, IHrmsgs, IHrsize, IHrfiles, IHrscan, IHrftc, IHrfts, IHrapp,
            IHrappk, IHrfold⟩ := IHr
          rw [scanEntries_dir_deep task taskId dirPath currentDepth name true children rest stats hab hd]
          simp only [scanDirectory_readable task taskId (dirPath ++ [name]) children
            (currentDepth + 1) _ hab]
          rw [show visitedFiles task.scanDepth dirPath currentDepth
              (FSNode.dir name true children :: rest) =
            (if currentDepth < task.scanDepth ∧ true = true then
              visitedFiles task.scanDepth (dirPath ++ [name]) (currentDepth + 1) children
            else []) ++ visitedFiles task.scanDepth dirPath currentDepth rest from by
              rw [visitedFiles]]
          simp only [hd, and_true, if_true, IHcthrown, Bool.false_eq_true, if_false]
          refine ⟨IHrthrown, ?_, ?_, ?_, ?_, ?_, ?_, ?_, ?_, ?_⟩
          · intro m hm
            rcases List.mem_append.mp hm with hm | hm
            · exact IHcmsgs m hm
            · exact IHrmsgs m hm
          · rw [IHrsize, IHcsize, sumSizes_append]
            simp [Nat.add_assoc]
          · rw [IHrfiles, IHcfiles]
            simp [Nat.add_assoc]
          · rw [IHrscan, IHcscan]
            simp [Nat.add_assoc]
          · rw [IHrftc, IHcftc]
            simp [Nat.add_assoc]
          · rw [IHrfts, IHcfts, sumSizes_append]
            simp [Nat.add_assoc]
          · intro a
            rw [IHrapp a, IHcapp a, appKeySum_append]
            simp [Nat.add_assoc]
          · intro a
            rw [IHrappk a, IHcappk a]
            simp only [List.mem_append]
            constructor
            · rintro ((h | ⟨pr, hpr, hk⟩) | ⟨pr, hpr, hk⟩)
              · exact Or.inl h
              · exact Or.inr ⟨pr, Or.inl hpr, hk⟩
              · exact Or.inr ⟨pr, Or.inr hpr, hk⟩
            · rintro (h | ⟨pr, hpr | hpr, hk⟩)
              · exact Or.inl (Or.inl h)
              · exact Or.inl (Or.inr ⟨pr, hpr, hk⟩)
              · exact Or.inr ⟨pr, hpr, hk⟩
          · intro hrd
            have hrd' : task.drivePath <+: dirPath ++ [name] :=
              hrd.trans (List.prefix_append dirPath [name])
            refine ⟨fun F => ?_, fun F h => ?_⟩
            · rw [(IHrfold hrd).1 F, (IHcfold hrd').1 F, folderCredit_append]
              have hens : measAt FolderEntry.size F
                  (ensureA (dirPath ++ [name])
                    { name := getFolderName (dirPath ++ [name]), path := dirPath ++ [name],
                      size := 0 } stats.folders) = measAt FolderEntry.size F stats.folders :=
                measAt_ensureA FolderEntry.size (dirPath ++ [name]) F _ stats.folders rfl
              rw [show measAt FolderEntry.size F
                  ({ stats with
                      folders := (ensureA (dirPath ++ [name])
                        { name := getFolderName (dirPath ++ [name]), path := dirPath ++ [name],
                          size := 0 } stats.folders) } : Stats).folders =
                measAt FolderEntry.size F stats.folders from hens]
              simp [Nat.add_assoc]
            · rcases (IHrfold hrd).2 F h with h1 | h1
              · rcases (IHcfold hrd').2 F h1 with h2 | h2
                · rcases (isSome_lookupA_ensureA (dirPath ++ [name]) F
                    { name := getFolderName (dirPath ++ [name]), path := dirPath ++ [name],
                      size := 0 } stats.folders).mp (by simpa using h2) with h3 | h3
                  · exact Or.inr (h3 ▸ hrd')
                  · exact Or.inl h3
                · exact Or.inr h2
              · exact Or.inr h1
      · -- at the depth ceiling: record the folder, do not descend
        have IH := ih (sizeOf rest) hrest rest rfl dirPath currentDepth
          { stats with
              folders := (ensureA (dirPath ++ [name])
                { name := getFolderName (dirPath ++ [name]), path := dirPath ++ [name],
                  size := 0 } stats.folders) }
        unfold WalkAgrees at IH ⊢
        obtain ⟨IHthrown, IHmsgs, IHsize, IHfiles, IHscan, IHftc, IHfts, IHapp, IHappk, IHfold⟩ := IH
        rw [scanEntries_dir_shallow task taskId dirPath currentDepth name readable children rest
          stats hab hd]
        rw [show visitedFiles task.scanDepth dirPath currentDepth
            (FSNode.dir name readable children :: rest) =
          (if currentDepth < task.scanDepth ∧ readable = true then
            visitedFiles task.scanDepth (dirPath ++ [name]) (currentDepth + 1) children
          else []) ++ visitedFiles task.scanDepth dirPath currentDepth rest from by
            rw [visitedFiles]]
        have hcond : ¬ (currentDepth < task.scanDepth ∧ readable = true) := fun hc => hd hc.1
        simp only [hcond, if_false, List.nil_append]
        refine ⟨IHthrown, IHmsgs, by simpa using IHsize, by simpa using IHfiles,
          by simpa using IHscan, by simpa using IHftc, by simpa using IHfts,
          fun a => by simpa using IHapp a, fun a => by simpa using IHappk a, fun hrd => ?_⟩
        have hrd' : task.drivePath <+: dirPath ++ [name] :=
          hrd.trans (List.prefix_append dirPath [name])
        refine ⟨fun F => ?_, fun F h => ?_⟩
        · rw [(IHfold hrd).1 F]
          have hens : measAt FolderEntry.size F
              (ensureA (dirPath ++ [name])
                { name := getFolderName (dirPath ++ [name]), path := dirPath ++ [name],
                  size := 0 } stats.folders) = measAt FolderEntry.size F stats.folders :=
            measAt_ensureA FolderEntry.size (dirPath ++ [name]) F _ stats.folders rfl
          simp [hens]
        · rcases (IHfold hrd).2 F h with h1 | h1
          · rcases (isSome_lookupA_ensureA (dirPath ++ [name]) F
              { name := getFolderName (dirPath ++ [name]), path := dirPath ++ [name],
                size := 0 } stats.folders).mp (by simpa using h1) with h2 | h2
            · exact Or.inr (h2 ▸ hrd')
            · exact Or.inl h2
          · exact Or.inr h1

/-- With the abort flag clear, a scanDirectory invocation never lets an
exception escape. -/
theorem scanDirectory_not_thrown (task : Task) (taskId : String) (dirPath : List String)
    (readable : Bool) (children : List FSNode) (currentDepth : Nat) (stats : Stats)
    (hab : task.abort = false) :
    (scanDirectory task taskId dirPath readable children currentDepth stats).thrown = false := by
  cases readable
  · rw [scanDirectory_unreadable task taskId dirPath children currentDepth stats hab]
  · rw [scanDirectory_readable task taskId dirPath children currentDepth stats hab]
    have W := scanEntries_walkAgrees task taskId hab children dirPath currentDepth stats
    unfold WalkAgrees at W
    exact W.1

/-- With the abort flag clear, every message the walk emits is a progress
message. -/
theorem scanDirectory_msgs_progress (task : Task) (taskId : String) (dirPath : List String)
    (readable : Bool) (children : List FSNode) (currentDepth : Nat) (stats : Stats)
    (hab : task.abort = false) :
    ∀ m ∈ (scanDirectory task taskId dirPath readable children currentDepth stats).msgs,
      m.isProgress = true := by
  cases readable
  · rw [scanDirectory_unreadable task taskId dirPath children currentDepth stats hab]
    simp
  · rw [scanDirectory_readable task taskId dirPath children currentDepth stats hab]
    have W := scanEntries_walkAgrees task taskId hab children dirPath currentDepth stats
    unfold WalkAgrees at W
    exact W.2.1

theorem Msg.isProgress_isError (m : Msg) (h : m.isProgress = true) : m.isError = false := by
  cases m <;> simp [Msg.isProgress, Msg.isError] at h ⊢

theorem Msg.isProgress_isComplete (m : Msg) (h : m.isProgress = true) : m.isComplete = false := by
  cases m <;> simp [Msg.isProgress, Msg.isComplete] at h ⊢

/-- Shape of a start_scan run over an existing root with the abort flag clear:
scan_started, then the walk messages, then exactly one scan_complete. -/
theorem startScan_valid_shape (fs : FS) (root : List String) (sdo : Option Nat)
    (ws : Bool) (taskId : String) (dur : Nat) (hex : fs.rootExists = true) :
    startScan fs (some root) sdo false ws taskId dur =
      ⟨Msg.scanStarted taskId ::
        ((scanDirectory ⟨root, sdo.getD 2, false, ws⟩ taskId root fs.rootReadable
            fs.rootChildren 1 initStats).msgs ++
          [Msg.scanComplete taskId
            (formatScanResults
              (scanDirectory ⟨root, sdo.getD 2, false, ws⟩ taskId root fs.rootReadable
                fs.rootChildren 1 initStats).stats)
            dur]),
        true,
        some (scanDirectory ⟨root, sdo.getD 2, false, ws⟩ taskId root fs.rootReadable
          fs.rootChildren 1 initStats).stats⟩ := by
  unfold startScan
  have hthrown := scanDirectory_not_thrown ⟨root, sdo.getD 2, false, ws⟩
    taskId root fs.rootReadable fs.rootChildren 1 initStats rfl
  simp [hex, terminalMsgs, hthrown]

/-! The claims. -/

/-- C1: for every completed walk (abort flag clear, readable root) and every
folder F holding a FolderEntry, folders[F].size equals the sum of the sizes of
all successfully stat-ed regular files the walk visited (within the depth
ceiling) whose path lies in the subtree of F and at or below the scan root;
each size reaches every ancestor up to and including the root, ancestor
membership being the prefix comparison against the root path. -/
theorem folder_size_eq_subtree_sum (task : Task) (taskId : String) (es : List FSNode)
    (hab : task.abort = false) (F : List String)
    (hmem : (lookupA F (scanDirectory task taskId task.drivePath true es 1
      initStats).stats.folders).isSome = true) :
    measAt FolderEntry.size F
        (scanDirectory task taskId task.drivePath true es 1 initStats).stats.folders =
      subtreeFileSum task.drivePath F (visitedFiles task.scanDepth task.drivePath 1 es) := by
  rw [scanDirectory_readable task taskId task.drivePath es 1 initStats hab] at hmem ⊢
  have W := scanEntries_walkAgrees task taskId hab es task.drivePath 1 initStats
  unfold WalkAgrees at W
  have hfold := W.2.2.2.2.2.2.2.2.2 List.prefix_rfl
  have hroot : task.drivePath <+: F := by
    rcases hfold.2 F hmem with h | h
    · simp [initStats, lookupA] at h
    · exact h
  rw [hfold.1 F]
  rw [show measAt FolderEntry.size F initStats.folders = 0 from rfl, Nat.zero_add]
  unfold folderCredit subtreeFileSum
  have hfc : (visitedFiles task.scanDepth task.drivePath 1 es).filter
      (fun pr => task.drivePath.isPrefixOf F && F.isPrefixOf pr.1.dropLast) =
    (visitedFiles task.scanDepth task.drivePath 1 es).filter
      (fun pr => task.drivePath.isPrefixOf pr.1 && F.isPrefixOf pr.1.dropLast) := by
    apply List.filter_congr
    intro pr hpr
    rcases visitedFiles_shape task.scanDepth task.drivePath 1 es pr hpr with ⟨mid, nm, heq⟩
    have hpr1 : task.drivePath <+: pr.1 := by
      rw [heq]
      exact (List.prefix_append task.drivePath mid).trans
        (List.prefix_append (task.drivePath ++ mid) [nm])
    have h1 : task.drivePath.isPrefixOf F = true := List.isPrefixOf_iff_prefix.mpr hroot
    have h2 : task.drivePath.isPrefixOf pr.1 = true := List.isPrefixOf_iff_prefix.mpr hpr1
    rw [h1, h2]
  rw [hfc]

/-- C2: for every scan that reaches completion, totalSize equals the sum of
the sizes of all files whose metadata query succeeded during the walk (files
in unreadable directories or beyond the depth ceiling are never queried and
contribute nothing; a failing statSync contributes nothing). -/
theorem totalSize_eq_sum_visited (task : Task) (taskId : String) (readable : Bool)
    (es : List FSNode) (hab : task.abort = false) :
    (scanDirectory task taskId task.drivePath readable es 1 initStats).stats.totalSize =
      sumSizes (if readable then visitedFiles task.scanDepth task.drivePath 1 es else []) := by
  cases readable
  · rw [scanDirectory_unreadable task taskId task.drivePath es 1 initStats hab]
    simp [initStats, sumSizes_nil]
  · rw [scanDirectory_readable task taskId task.drivePath es 1 initStats hab]
    have W := scanEntries_walkAgrees task taskId hab es task.drivePath 1 initStats
    unfold WalkAgrees at W
    rw [W.2.2.1]
    simp [initStats]

/-- C3: once a stop request is acknowledged (the task abort flag is set and
scan_stopped was emitted), the walk emits no further message from any
checkpoint onward, and the terminal handlers emit neither scan_complete nor
scan_error: no scan_progress or scan_complete for the task is ever sent
again. -/
theorem abort_suppresses_all_messages (t t' : Task) (taskId : String)
    (hstop : stopScan (some t) taskId = ([Msg.scanStopped taskId], some t')) :
    (∀ (dirPath : List String) (readable : Bool) (children : List FSNode)
      (currentDepth : Nat) (stats : Stats),
      (scanDirectory t' taskId dirPath readable children currentDepth stats).msgs = []) ∧
    (∀ (dirPath : List String) (currentDepth : Nat) (es : List FSNode) (stats : Stats),
      (scanEntries t' taskId dirPath currentDepth es stats).msgs = []) ∧
    (∀ (r : WalkResult) (dur : Nat), terminalMsgs t' taskId r dur = []) := by
  have habt : t'.abort = true := by
    unfold stopScan at hstop
    have h2 := congrArg (fun pr => pr.2) hstop
    simp at h2
    rw [← h2]
  refine ⟨?_, ?_, ?_⟩
  · intro dirPath readable children currentDepth stats
    rw [scanDirectory_abort t' taskId dirPath readable children currentDepth stats habt]
  · intro dirPath currentDepth es stats
    rcases es with _ | ⟨entry, rest⟩
    · rw [scanEntries_nil]
    · rw [scanEntries_cons_abort t' taskId dirPath currentDepth entry rest stats habt]
  · intro r dur
    unfold terminalMsgs
    simp [habt]

/-- C4: for every start_scan request whose drivePath is missing or does not
exist, exactly one scan_error message is sent, no scan_started is ever sent,
and the task is never inserted into the registry. -/
theorem invalid_root_error_only (fs : FS) (drivePath : Option (List String))
    (sdo : Option Nat) (abort ws : Bool) (taskId : String) (dur : Nat)
    (hinvalid : drivePath = none ∨ fs.rootExists = false) :
    (startScan fs drivePath sdo abort ws taskId dur).msgs =
      [Msg.scanError taskId (invalidPathMsg drivePath)] ∧
    (startScan fs drivePath sdo abort ws taskId dur).inserted = false := by
  rcases hinvalid with h | h
  · subst h
    unfold startScan
    exact ⟨rfl, rfl⟩
  · rcases drivePath with _ | root
    · unfold startScan
      exact ⟨rfl, rfl⟩
    · unfold startScan
      simp [h, invalidPathMsg]

/-- C5 counterexample: a root that exists but is unreadable is not rejected:
the task is registered and the run ends in scan_complete with no scan_error,
contradicting the claimed immediate InvalidPath failure. -/
theorem unreadable_root_completes_counterexample :
    ((startScan ⟨true, false, []⟩ (some ["d"]) none false true "1" 0).msgs.any
      Msg.isComplete = true) ∧
    ((startScan ⟨true, false, []⟩ (some ["d"]) none false true "1" 0).msgs.any
      Msg.isError = false) ∧
    ((startScan ⟨true, false, []⟩ (some ["d"]) none false true "1" 0).inserted = true) := by
  decide

/-- C5 amended: for every task whose root path exists but is not readable at
call time, startScan registers the task and sends scan_started; the walk
increments errorCount once, creates no folder or file entries, and the run
completes normally with scan_complete over the empty aggregates — a readable
root is not a precondition and no InvalidPath failure occurs. -/
theorem unreadable_root_completes (root : List String) (cs : List FSNode)
    (sdo : Option Nat) (ws : Bool) (taskId : String) (dur : Nat) :
    startScan ⟨true, false, cs⟩ (some root) sdo false ws taskId dur =
      ⟨[Msg.scanStarted taskId,
        Msg.scanComplete taskId
          (formatScanResults { initStats with errorCount := 1 }) dur],
        true, some { initStats with errorCount := 1 }⟩ := by
  have hsd := scanDirectory_unreadable ⟨root, sdo.getD 2, false, ws⟩ taskId root cs 1 initStats rfl
  simp only [startScan, hsd, terminalMsgs]
  simp [initStats]

/-- C6: a failing directory listing (permission or I/O) skips that subtree
after incrementing errorCount and recording its FolderEntry; a failing
metadata query skips that single entry after incrementing errorCount; the
traversal continues with the remaining work, and a non-aborted run over an
existing root still ends in scan_complete, never scan_error. -/
theorem entry_errors_are_nonfatal (task : Task) (taskId : String) (dirPath : List String)
    (currentDepth : Nat) (name : String) (children rest : List FSNode) (stats : Stats)
    (hab : task.abort = false) (hd : currentDepth < task.scanDepth) :
    (scanEntries task taskId dirPath currentDepth
        (FSNode.dir name false children :: rest) stats =
      scanEntries task taskId dirPath currentDepth rest
        { stats with
            folders := (ensureA (dirPath ++ [name])
              { name := getFolderName (dirPath ++ [name]), path := dirPath ++ [name],
                size := 0 } stats.folders),
            errorCount := stats.errorCount + 1 }) ∧
    (scanEntries task taskId dirPath currentDepth
        (FSNode.file name none :: rest) stats =
      scanEntries task taskId dirPath currentDepth rest
        { stats with errorCount := stats.errorCount + 1 }) ∧
    (∀ (fs : FS) (sdo : Option Nat) (ws : Bool) (dur : Nat), fs.rootExists = true →
      ((startScan fs (some task.drivePath) sdo false ws taskId dur).msgs.any
        Msg.isError = false) ∧
      ((startScan fs (some task.drivePath) sdo false ws taskId dur).msgs.any
        Msg.isComplete = true)) := by
  refine ⟨?_, ?_, ?_⟩
  · rw [scanEntries_dir_deep task taskId dirPath currentDepth name false children rest stats
      hab hd]
    have hun : ∀ st : Stats, scanDirectory task taskId (dirPath ++ [name]) false children
        (currentDepth + 1) st = ⟨[], { st with errorCount := st.errorCount + 1 }, false⟩ :=
      fun st => scanDirectory_unreadable task taskId (dirPath ++ [name]) children
        (currentDepth + 1) st hab
    simp only [hun]
    simp
  · exact scanEntries_file_err task taskId dirPath currentDepth name rest stats hab
  · intro fs sdo ws dur hex
    rw [startScan_valid_shape fs task.drivePath sdo ws taskId dur hex]
    have hprog := scanDirectory_msgs_progress ⟨task.drivePath, sdo.getD 2, false, ws⟩
      taskId task.drivePath fs.rootReadable fs.rootChildren 1 initStats rfl
    constructor
    · simp only [List.any_cons, List.any_append]
      rw [show (Msg.scanStarted taskId).isError = false from rfl]
      rw [show List.any (scanDirectory ⟨task.drivePath, sdo.getD 2, false, ws⟩ taskId
          task.drivePath fs.rootReadable fs.rootChildren 1 initStats).msgs Msg.isError =
        false from List.any_eq_false.mpr
          (fun m hm => by simp [Msg.isProgress_isError m (hprog m hm)])]
      rfl
    · simp only [List.any_cons, List.any_append, List.any_nil]
      rw [show (Msg.scanComplete taskId
        (formatScanResults (scanDirectory ⟨task.drivePath, sdo.getD 2, false, ws⟩ taskId
          task.drivePath fs.rootReadable fs.rootChildren 1 initStats).stats)
        dur).isComplete = true from rfl]
      simp

/-- C7: a directory entry at currentDepth equal to maxDepth is recorded as a
FolderEntry but not descended into, so the walk visits no file inside it and
its contents add nothing to any total; descending happens exactly under
currentDepth < maxDepth, with the child walked at currentDepth + 1. -/
theorem depth_ceiling_records_without_descending (task : Task) (taskId : String)
    (dirPath : List String) (currentDepth : Nat) (name : String) (readable : Bool)
    (children rest : List FSNode) (stats : Stats)
    (hab : task.abort = false) (hceil : currentDepth = task.scanDepth) :
    (scanEntries task taskId dirPath currentDepth
        (FSNode.dir name readable children :: rest) stats =
      scanEntries task taskId dirPath currentDepth rest
        { stats with
            folders := (ensureA (dirPath ++ [name])
              { name := getFolderName (dirPath ++ [name]), path := dirPath ++ [name],
                size := 0 } stats.folders) }) ∧
    ((lookupA (dirPath ++ [name])
        (ensureA (dirPath ++ [name])
          { name := getFolderName (dirPath ++ [name]), path := dirPath ++ [name], size := 0 }
          stats.folders)).isSome = true) ∧
    (visitedFiles task.scanDepth dirPath currentDepth
        (FSNode.dir name readable children :: rest) =
      visitedFiles task.scanDepth dirPath currentDepth rest) ∧
    ((scanEntries task taskId dirPath currentDepth
        (FSNode.dir name readable children :: rest) stats).stats.totalSize =
      stats.totalSize + sumSizes (visitedFiles task.scanDepth dirPath currentDepth rest)) ∧
    (∀ d2, d2 < task.scanDepth →
      scanEntries task taskId dirPath d2
          (FSNode.dir name readable children :: rest) stats =
        (let stats1 : Stats := { stats with folders :=
            (ensureA (dirPath ++ [name])
              { name := getFolderName (dirPath ++ [name]), path := dirPath ++ [name],
                size := 0 } stats.folders) }
         let r := scanDirectory task taskId (dirPath ++ [name]) readable children
            (d2 + 1) stats1
         let stats2 := if r.thrown then { r.stats with errorCount := r.stats.errorCount + 1 }
            else r.stats
         let rr := scanEntries task taskId dirPath d2 rest stats2
         ⟨r.msgs ++ rr.msgs, rr.stats, rr.thrown⟩)) := by
  have hnd : ¬ currentDepth < task.scanDepth := by omega
  have hshallow := scanEntries_dir_shallow task taskId dirPath currentDepth name readable
    children rest stats hab hnd
  have hvis : visitedFiles task.scanDepth dirPath currentDepth
      (FSNode.dir name readable children :: rest) =
    visitedFiles task.scanDepth dirPath currentDepth rest := by
    rw [visitedFiles]
    have : ¬ (currentDepth < task.scanDepth ∧ readable = true) := fun hc => hnd hc.1
    simp [this]
  refine ⟨hshallow, ?_, hvis, ?_, ?_⟩
  · exact (isSome_lookupA_ensureA (dirPath ++ [name]) (dirPath ++ [name])
      { name := getFolderName (dirPath ++ [name]), path := dirPath ++ [name], size := 0 }
      stats.folders).mpr (Or.inl rfl)
  · rw [hshallow]
    have W := scanEntries_walkAgrees task taskId hab rest dirPath currentDepth
      { stats with
          folders := (ensureA (dirPath ++ [name])
            { name := getFolderName (dirPath ++ [name]), path := dirPath ++ [name],
              size := 0 } stats.folders) }
    unfold WalkAgrees at W
    rw [W.2.2.1]
  · intro d2 hd2
    exact scanEntries_dir_deep task taskId dirPath d2 name readable children rest stats hab hd2

/-- Invariant relating the global counters to the file-type histogram
(claim C10). -/
def StatsInv (s : Stats) : Prop :=
  s.totalFiles = s.scannedCount ∧
  s.totalFiles = sumMeas FileTypeEntry.count s.fileTypes ∧
  s.totalSize = sumMeas FileTypeEntry.size s.fileTypes

/-- C10: after every successfully processed file and across every entry-loop
invocation, totalFiles equals scannedCount, totalFiles equals the sum of the
counts of all file-type buckets, and totalSize equals the sum of their sizes:
each successful file bumps exactly one bucket by one count and its size,
alongside the global counters. -/
theorem counters_match_histogram (task : Task) (taskId : String) (dirPath : List String)
    (name : String) (size : Nat) (currentDepth : Nat) (es : List FSNode) (stats : Stats)
    (hInv : StatsInv stats) :
    StatsInv (processFile task taskId dirPath name size stats).1 ∧
    StatsInv (scanEntries task taskId dirPath currentDepth es stats).stats := by
  obtain ⟨h1, h2, h3⟩ := hInv
  constructor
  · refine ⟨?_, ?_, ?_⟩
    · rw [show (processFile task taskId dirPath name size stats).1.totalFiles =
        stats.totalFiles + 1 from by rw [processFile_stats]]
      rw [show (processFile task taskId dirPath name size stats).1.scannedCount =
        stats.scannedCount + 1 from by rw [processFile_stats]]
      omega
    · rw [show (processFile task taskId dirPath name size stats).1.totalFiles =
        stats.totalFiles + 1 from by rw [processFile_stats]]
      rw [processFile_fileTypes_count]
      omega
    · rw [show (processFile task taskId dirPath name size stats).1.totalSize =
        stats.totalSize + size from by rw [processFile_stats]]
      rw [processFile_fileTypes_size]
      omega
  · rcases hab : task.abort with _ | _
    · have W := scanEntries_walkAgrees task taskId hab es dirPath currentDepth stats
      unfold WalkAgrees at W
      refine ⟨?_, ?_, ?_⟩
      · rw [W.2.2.2.1, W.2.2.2.2.1]
        omega
      · rw [W.2.2.2.1, W.2.2.2.2.2.1]
        omega
      · rw [W.2.2.1, W.2.2.2.2.2.2.1]
        omega
    · rcases es with _ | ⟨entry, rest⟩
      · rw [scanEntries_nil]
        exact ⟨h1, h2, h3⟩
      · rw [scanEntries_cons_abort task taskId dirPath currentDepth entry rest stats hab]
        exact ⟨h1, h2, h3⟩

/-- The truncated descending sort used by the formatter is sorted
non-increasing by size. -/
theorem sorted_take_pairwise {β : Type} (size : β → Nat) (l : List β) (n : Nat) :
    ((l.mergeSort (fun a b => sizeDescLe (size a) (size b))).take n).Pairwise
      (fun a b => size b ≤ size a) := by
  have hs := @List.sorted_mergeSort β (fun a b => sizeDescLe (size a) (size b))
    (fun a b c hab hbc => by
      simp [sizeDescLe] at hab hbc ⊢
      omega)
    (fun a b => by
      simp [sizeDescLe]
      omega) l
  have hp := List.Pairwise.sublist (List.take_sublist n _) hs
  exact hp.imp (fun h => by simpa [sizeDescLe] using h)

/-- Members of the truncated descending sort of a filtered list pass the
filter. -/
theorem mem_take_mergeSort_filter {β : Type} (p : β → Bool) (le : β → β → Bool)
    (l : List β) (n : Nat) (e : β) (he : e ∈ ((l.filter p).mergeSort le).take n) :
    p e = true := by
  have h1 : e ∈ (l.filter p).mergeSort le := List.mem_of_mem_take he
  have h2 : e ∈ l.filter p := List.mem_mergeSort.mp h1
  exact (List.mem_filter.mp h2).2

/-- C8 counterexample: the synthetic placeholder application entry carries the
source literal 未识别应用, not the name "unrecognized" stated by the claim. -/
theorem placeholder_name_counterexample :
    ((formatScanResults initStats).applications.map AppOut.name = ["未识别应用"]) ∧
    (∀ e ∈ (formatScanResults initStats).applications, ¬ e.name = "unrecognized") := by
  have h : (formatScanResults initStats).applications = [placeholderApp] := by
    simp [formatScanResults, formatApplications, initStats]
  rw [h]
  constructor
  · rfl
  · intro e he
    rw [List.mem_singleton.mp he]
    decide

/-- C8 amended: for every aggregator state, the three formatted lists have at
most 20 entries each, are sorted non-increasing by size, and contain no entry
with size 0; when the filtered application list is empty, the applications
list is exactly the one synthetic placeholder entry, whose name is the source
literal 未识别应用 (the claim renders it as "unrecognized") and whose size
is 1. -/
theorem format_results_bounded_sorted_positive (stats : Stats) :
    ((formatScanResults stats).fileTypes.length ≤ 20 ∧
      (formatScanResults stats).folders.length ≤ 20 ∧
      (formatScanResults stats).applications.length ≤ 20) ∧
    ((formatScanResults stats).fileTypes.Pairwise (fun a b => b.size ≤ a.size) ∧
      (formatScanResults stats).folders.Pairwise (fun a b => b.size ≤ a.size) ∧
      (formatScanResults stats).applications.Pairwise (fun a b => b.size ≤ a.size)) ∧
    ((∀ e ∈ (formatScanResults stats).fileTypes, 0 < e.size) ∧
      (∀ e ∈ (formatScanResults stats).folders, 0 < e.size) ∧
      (∀ e ∈ (formatScanResults stats).applications, 0 < e.size)) ∧
    (formatApplications stats = [] →
      (formatScanResults stats).applications = [placeholderApp]) := by
  have hft : (formatScanResults stats).fileTypes = formatFileTypes stats := rfl
  have hfo : (formatScanResults stats).folders = formatFolders stats := rfl
  have hap : (formatScanResults stats).applications =
      (if (formatApplications stats).length = 0 then
        formatApplications stats ++ [placeholderApp]
      else formatApplications stats) := rfl
  have happlen : (formatApplications stats).length ≤ 20 := by
    unfold formatApplications
    exact List.length_take_le 20 _
  have happsorted : (formatApplications stats).Pairwise (fun a b => b.size ≤ a.size) := by
    unfold formatApplications
    exact sorted_take_pairwise AppOut.size _ 20
  have happpos : ∀ e ∈ formatApplications stats, 0 < e.size := by
    intro e he
    unfold formatApplications at he
    have := mem_take_mergeSort_filter (fun item => decide (0 < item.size)) _ _ 20 e he
    exact of_decide_eq_true this
  refine ⟨⟨?_, ?_, ?_⟩, ⟨?_, ?_, ?_⟩, ⟨?_, ?_, ?_⟩, ?_⟩
  · rw [hft]
    unfold formatFileTypes
    exact List.length_take_le 20 _
  · rw [hfo]
    unfold formatFolders
    exact List.length_take_le 20 _
  · rw [hap]
    by_cases h : (formatApplications stats).length = 0
    · simp [h, List.length_eq_zero.mp h]
    · simpa [h] using happlen
  · rw [hft]
    unfold formatFileTypes
    exact sorted_take_pairwise FileTypeOut.size _ 20
  · rw [hfo]
    unfold formatFolders
    exact sorted_take_pairwise FolderOut.size _ 20
  · rw [hap]
    by_cases h : (formatApplications stats).length = 0
    · simp [h, List.length_eq_zero.mp h]
    · simpa [h] using happsorted
  · intro e he
    rw [hft] at he
    unfold formatFileTypes at he
    have := mem_take_mergeSort_filter (fun item => decide (0 < item.size)) _ _ 20 e he
    exact of_decide_eq_true this
  · intro e he
    rw [hfo] at he
    unfold formatFolders at he
    have := mem_take_mergeSort_filter
      (fun item => decide (0 < item.size) && decide (item.name ≠ "")) _ _ 20 e he
    exact of_decide_eq_true (Bool.and_eq_true_iff.mp this).1
  · intro e he
    rw [hap] at he
    by_cases h : (formatApplications stats).length = 0
    · rw [if_pos h, List.length_eq_zero.mp h] at he
      simp at he
      rw [he]
      decide
    · rw [if_neg h] at he
      exact happpos e he
  · intro h
    rw [hap, h]
    simp

/-- C9 counterexample: a matched file whose extension is spelled in upper
case keeps its full name as the application key: after scanning a single file
SETUP.EXE, the applications map has the key SETUP.EXE and no entry at the
claimed extension-stripped key SETUP. -/
theorem app_key_not_stripped_counterexample :
    (lookupA "SETUP"
      (scanDirectory ⟨["r"], 2, false, false⟩ "1" ["r"] true
        [FSNode.file "SETUP.EXE" (some 7)] 1 initStats).stats.applications = none) ∧
    (lookupA "SETUP.EXE"
      (scanDirectory ⟨["r"], 2, false, false⟩ "1" ["r"] true
        [FSNode.file "SETUP.EXE" (some 7)] 1 initStats).stats.applications =
      some { name := "SETUP.EXE", path := ["r", "SETUP.EXE"], size := 7 }) := by
  rw [scanDirectory_readable ⟨["r"], 2, false, false⟩ "1" ["r"]
    [FSNode.file "SETUP.EXE" (some 7)] 1 initStats rfl]
  rw [scanEntries_file_ok ⟨["r"], 2, false, false⟩ "1" ["r"] 1 "SETUP.EXE" 7 [] initStats rfl]
  rw [scanEntries_nil, processFile_stats]
  decide

/-- C9 amended: a file classified as an application indicator (lowercase
extension in the executable set, or a case-insensitive application-directory
marker in its path) contributes its size to the ApplicationEntry keyed by
path.basename(name, "." ++ lowercased extension): the extension suffix is
stripped only when its spelling in the name matches that lowercase form
exactly, otherwise the full file name is the key.  Entries with the same
derived key accumulate sizes additively, and a key exists in the map exactly
when some visited matched file derives it; non-matching files create no
entry. -/
theorem applications_accumulate_by_derived_key (task : Task) (taskId : String)
    (es : List FSNode) (hab : task.abort = false) (a : String) :
    (measAt AppEntry.size a
        (scanDirectory task taskId task.drivePath true es 1 initStats).stats.applications =
      appKeySum a (visitedFiles task.scanDepth task.drivePath 1 es)) ∧
    ((lookupA a
        (scanDirectory task taskId task.drivePath true es 1
          initStats).stats.applications).isSome = true ↔
      ∃ pr ∈ visitedFiles task.scanDepth task.drivePath 1 es,
        visitedAppKey pr = some a) := by
  rw [scanDirectory_readable task taskId task.drivePath es 1 initStats hab]
  have W := scanEntries_walkAgrees task taskId hab es task.drivePath 1 initStats
  unfold WalkAgrees at W
  constructor
  · rw [W.2.2.2.2.2.2.2.1 a]
    simp [initStats, measAt, lookupA]
  · rw [W.2.2.2.2.2.2.2.2.1 a]
    simp [initStats, lookupA]

/-! Witnesses: concrete instantiations discharging each hypothesis. -/

/-- Witness for the folder rollup claim on a one-file scan. -/
theorem folder_size_eq_subtree_sum_witness :
    ((⟨["d"], 2, false, false⟩ : Task).abort = false) ∧
    ((lookupA ["d"] (scanDirectory ⟨["d"], 2, false, false⟩ "1" ["d"] true
      [FSNode.file "a.txt" (some 100)] 1 initStats).stats.folders).isSome = true) ∧
    (measAt FolderEntry.size ["d"]
        (scanDirectory ⟨["d"], 2, false, false⟩ "1" ["d"] true
          [FSNode.file "a.txt" (some 100)] 1 initStats).stats.folders =
      subtreeFileSum ["d"] ["d"]
        (visitedFiles 2 ["d"] 1 [FSNode.file "a.txt" (some 100)])) := by
  have hmem : (lookupA ["d"] (scanDirectory ⟨["d"], 2, false, false⟩ "1" ["d"] true
      [FSNode.file "a.txt" (some 100)] 1 initStats).stats.folders).isSome = true := by
    rw [scanDirectory_readable ⟨["d"], 2, false, false⟩ "1" ["d"]
        [FSNode.file "a.txt" (some 100)] 1 initStats rfl,
      scanEntries_file_ok ⟨["d"], 2, false, false⟩ "1" ["d"] 1 "a.txt" 100 [] initStats rfl,
      scanEntries_nil, processFile_stats]
    simp [updateFoldersForFile, propagateUp, bumpA, ensureA, setA, lookupA, initStats]
  exact ⟨rfl, hmem,
    folder_size_eq_subtree_sum ⟨["d"], 2, false, false⟩ "1"
      [FSNode.file "a.txt" (some 100)] rfl ["d"] hmem⟩

/-- Witness for the total-size claim on the two-file scenario from the
specification. -/
theorem totalSize_eq_sum_visited_witness :
    ((⟨["data"], 2, false, false⟩ : Task).abort = false) ∧
    ((scanDirectory ⟨["data"], 2, false, false⟩ "1" ["data"] true
        [FSNode.file "a.txt" (some 100),
         FSNode.dir "sub" true [FSNode.file "b.txt" (some 50)]] 1 initStats).stats.totalSize =
      sumSizes (if true then visitedFiles 2 ["data"] 1
        [FSNode.file "a.txt" (some 100),
         FSNode.dir "sub" true [FSNode.file "b.txt" (some 50)]] else [])) :=
  ⟨rfl, totalSize_eq_sum_visited ⟨["data"], 2, false, false⟩ "1" true
    [FSNode.file "a.txt" (some 100),
     FSNode.dir "sub" true [FSNode.file "b.txt" (some 50)]] rfl⟩

/-- Witness for the abort suppression claim on a concrete stopped task. -/
theorem abort_suppresses_all_messages_witness :
    (stopScan (some ⟨["d"], 2, false, true⟩) "1" =
      ([Msg.scanStopped "1"], some ⟨["d"], 2, true, true⟩)) ∧
    ((scanDirectory (⟨["d"], 2, true, true⟩ : Task) "1" ["d"] true
      [FSNode.file "a.txt" (some 100)] 1 initStats).msgs = []) ∧
    ((scanEntries (⟨["d"], 2, true, true⟩ : Task) "1" ["d"] 1
      [FSNode.file "a.txt" (some 100)] initStats).msgs = []) ∧
    (terminalMsgs (⟨["d"], 2, true, true⟩ : Task) "1" ⟨[], initStats, false⟩ 0 = []) := by
  have h := abort_suppresses_all_messages ⟨["d"], 2, false, true⟩ ⟨["d"], 2, true, true⟩ "1" rfl
  exact ⟨rfl, h.1 ["d"] true [FSNode.file "a.txt" (some 100)] 1 initStats,
    h.2.1 ["d"] 1 [FSNode.file "a.txt" (some 100)] initStats, h.2.2 ⟨[], initStats, false⟩ 0⟩

/-- Witness for the invalid-root claim on a request with no path. -/
theorem invalid_root_error_only_witness :
    ((none : Option (List String)) = none ∨ (⟨true, true, []⟩ : FS).rootExists = false) ∧
    ((startScan ⟨true, true, []⟩ none none false true "1" 0).msgs =
      [Msg.scanError "1" (invalidPathMsg none)]) ∧
    ((startScan ⟨true, true, []⟩ none none false true "1" 0).inserted = false) := by
  have h := invalid_root_error_only ⟨true, true, []⟩ none none false true "1" 0 (Or.inl rfl)
  exact ⟨Or.inl rfl, h.1, h.2⟩

/-- Witness for the non-fatal per-entry error claim on a concrete run. -/
theorem entry_errors_are_nonfatal_witness :
    ((⟨["d"], 2, false, false⟩ : Task).abort = false) ∧
    (1 < (⟨["d"], 2, false, false⟩ : Task).scanDepth) ∧
    ((⟨true, true, []⟩ : FS).rootExists = true) ∧
    ((startScan ⟨true, true, []⟩ (some ["d"]) none false true "1" 0).msgs.any
      Msg.isError = false) ∧
    ((startScan ⟨true, true, []⟩ (some ["d"]) none false true "1" 0).msgs.any
      Msg.isComplete = true) := by
  have h := (entry_errors_are_nonfatal ⟨["d"], 2, false, false⟩ "1" ["d"] 1 "x" [] []
    initStats rfl (by decide)).2.2 ⟨true, true, []⟩ none true 0 rfl
  exact ⟨rfl, by decide, rfl, h.1, h.2⟩

/-- Witness for the depth-ceiling claim on a directory holding one file. -/
theorem depth_ceiling_witness :
    ((⟨["d"], 2, false, false⟩ : Task).abort = false) ∧
    ((2 : Nat) = (⟨["d"], 2, false, false⟩ : Task).scanDepth) ∧
    ((lookupA (["d"] ++ ["x"])
      (ensureA (["d"] ++ ["x"])
        { name := getFolderName (["d"] ++ ["x"]), path := ["d"] ++ ["x"], size := 0 }
        initStats.folders)).isSome = true) ∧
    (visitedFiles 2 ["d"] 2 (FSNode.dir "x" true [FSNode.file "f.txt" (some 5)] :: []) =
      visitedFiles 2 ["d"] 2 []) := by
  have h := depth_ceiling_records_without_descending ⟨["d"], 2, false, false⟩ "1" ["d"] 2 "x"
    true [FSNode.file "f.txt" (some 5)] [] initStats rfl rfl
  exact ⟨rfl, rfl, h.2.1, h.2.2.1⟩

/-- Witness for the formatter claim at the empty aggregator. -/
theorem format_results_bounded_sorted_positive_witness :
    ((formatScanResults initStats).fileTypes.length ≤ 20) ∧
    (formatApplications initStats = [] →
      (formatScanResults initStats).applications = [placeholderApp]) :=
  ⟨(format_results_bounded_sorted_positive initStats).1.1,
    (format_results_bounded_sorted_positive initStats).2.2.2⟩

/-- Witness for the application accumulation claim on a one-file scan. -/
theorem applications_accumulate_by_derived_key_witness :
    ((⟨["r"], 2, false, false⟩ : Task).abort = false) ∧
    (measAt AppEntry.size "setup"
        (scanDirectory ⟨["r"], 2, false, false⟩ "1" ["r"] true
          [FSNode.file "setup.exe" (some 7)] 1 initStats).stats.applications =
      appKeySum "setup" (visitedFiles 2 ["r"] 1 [FSNode.file "setup.exe" (some 7)])) :=
  ⟨rfl, (applications_accumulate_by_derived_key ⟨["r"], 2, false, false⟩ "1"
    [FSNode.file "setup.exe" (some 7)] rfl "setup").1⟩

/-- Witness for the counter invariant claim at the initial statistics. -/
theorem counters_match_histogram_witness :
    StatsInv initStats ∧
    StatsInv (processFile ⟨["d"], 2, false, false⟩ "1" ["d"] "a.txt" 100 initStats).1 := by
  have hInv : StatsInv initStats := ⟨rfl, rfl, rfl⟩
  exact ⟨hInv, (counters_match_histogram ⟨["d"], 2, false, false⟩ "1" ["d"] "a.txt" 100 1 []
    initStats hInv).1⟩

end DiskScanner
